import Mathlib

/-!
The `bytes` package of dafny-nfsd (`dafny_go/bytes/bytes.go`).

A shallow embedding of the Go type `Bytes` and its methods.

Go slices are views into shared backing arrays and `*Bytes` values are
compared by identity, so the embedding keeps an explicit heap:

* a store of backing arrays, addressed by number;
* a store of `Bytes` objects, addressed by number (a `*Bytes` pointer).

A slice value is the usual Go slice header: backing array, offset of the
first element, length and capacity.  The built-in operations the methods use
(indexing, slice expressions, `append`, `copy`) are modelled with the bounds
checks of the Go language specification; a failed check is a run-time panic.
A panic leaves the heap exactly as the statements executed before it left it,
which is why every method returns the heap together with its outcome.
-/

namespace DafnyGo

/-- A Go `byte`. -/
abbrev Byte := Fin 256

/-- The ways in which a method of `Bytes` can panic. -/
inductive Err where
  /-- The explicit `panic("bytes invalid")`. -/
  | Invalidated
  /-- The explicit `panic("attempt to append to self")` and
  `panic("attempt to CopySegment self")`. -/
  | SelfAliasing
  /-- A Go run-time panic: index out of range, slice bounds out of range, or
  (in `make`) length out of range. -/
  | OutOfBounds
  /-- A Go run-time panic: dereference of a pointer that is not a live object. -/
  | NilDeref
  deriving DecidableEq, Repr

/-- A Go slice header for `[]byte`: backing array, offset of the first element
inside that array, length and capacity. -/
structure Slice where
  arr : Nat
  off : Nat
  len : Nat
  cap : Nat
  deriving DecidableEq, Repr

/-- The Go struct `Bytes`: `Data []byte` and `Invalid bool`. -/
structure Bytes where
  Data : Slice
  Invalid : Bool
  deriving DecidableEq, Repr

/-- The heap: backing arrays and `Bytes` objects, both addressed by position. -/
structure Heap where
  arrays : List (List Byte)
  objs : List Bytes
  deriving DecidableEq, Repr

/-- The outcome of a call: a value or a panic. -/
inductive Outcome (α : Type) where
  | ok (v : α)
  | fail (e : Err)
  deriving DecidableEq, Repr

/-- Go `uint64` arithmetic wraps around modulo `2^64`. -/
def u64 (n : Nat) : Nat := n % 2 ^ 64

/-! ## Go built-ins on slices -/

/-- The simple slice expression `s[low:high]` on a slice: Go requires
`0 <= low <= high <= cap(s)`, and panics otherwise. -/
def Slice.slice (s : Slice) (low high : Nat) : Option Slice :=
  if low ≤ high ∧ high ≤ s.cap then
    some { arr := s.arr, off := s.off + low, len := high - low, cap := s.cap - low }
  else none

/-- The full slice expression `s[low:high:max]`: Go requires
`0 <= low <= high <= max <= cap(s)`; the result has capacity `max - low`. -/
def Slice.slice3 (s : Slice) (low high max : Nat) : Option Slice :=
  if low ≤ high ∧ high ≤ max ∧ max ≤ s.cap then
    some { arr := s.arr, off := s.off + low, len := high - low, cap := max - low }
  else none

/-- The slice expression `s[low:]`: the upper bound defaults to `len(s)`, so Go
requires `0 <= low <= len(s)`. -/
def Slice.sliceFrom (s : Slice) (low : Nat) : Option Slice :=
  if low ≤ s.len then
    some { arr := s.arr, off := s.off + low, len := s.len - low, cap := s.cap - low }
  else none

/-- The backing array with the given number (empty when there is none). -/
def Heap.array (h : Heap) (a : Nat) : List Byte := h.arrays.getD a []

/-- The bytes visible through a slice: `len` elements from `off` on. -/
def Heap.read (h : Heap) (s : Slice) : List Byte :=
  ((h.array s.arr).drop s.off).take s.len

/-- Overwrite the elements of `l` from position `i` on with `vs`. -/
def overwrite (l : List Byte) (i : Nat) (vs : List Byte) : List Byte :=
  l.take i ++ vs ++ l.drop (i + vs.length)

/-- Store `vs` into backing array `a` from position `i` on. -/
def Heap.writeAt (h : Heap) (a i : Nat) (vs : List Byte) : Heap :=
  { h with arrays := h.arrays.set a (overwrite (h.array a) i vs) }

/-- Store the single byte `v` at position `i` of backing array `a`. -/
def Heap.store (h : Heap) (a i : Nat) (v : Byte) : Heap :=
  { h with arrays := h.arrays.set a ((h.array a).set i v) }

/-- Allocate a new backing array; returns its number. -/
def Heap.newArray (h : Heap) (bytes : List Byte) : Nat × Heap :=
  (h.arrays.length, { h with arrays := h.arrays ++ [bytes] })

/-- Allocate a new `Bytes` object (`&Bytes{...}`); returns the pointer. -/
def Heap.newObj (h : Heap) (b : Bytes) : Nat × Heap :=
  (h.objs.length, { h with objs := h.objs ++ [b] })

/-- The assignment `bs.Data = s` for the live object `b` at pointer `bs`. -/
def Heap.setData (h : Heap) (bs : Nat) (b : Bytes) (s : Slice) : Heap :=
  { h with objs := h.objs.set bs { b with Data := s } }

/-- The built-in `append(s, vs...)`.  When the capacity suffices the elements
are stored in place behind the current length; otherwise a new backing array
is allocated, the visible elements are copied over and the new elements
follow.  The capacity of a new array is chosen by the Go runtime: `grow` is
that policy (old capacity, needed length), and the result is at least the
needed length. -/
def goAppend (grow : Nat → Nat → Nat) (h : Heap) (s : Slice) (vs : List Byte) :
    Slice × Heap :=
  let need := s.len + vs.length
  if need ≤ s.cap then
    ({ s with len := need }, h.writeAt s.arr (s.off + s.len) vs)
  else
    let newcap := max need (grow s.cap need)
    let fresh := h.newArray (h.read s ++ vs ++ List.replicate (newcap - need) 0)
    ({ arr := fresh.1, off := 0, len := need, cap := newcap }, fresh.2)

/-- The built-in `copy(dst, src)`: copies `min(len(dst), len(src))` elements,
with the source read before the destination is written (overlap-safe). -/
def goCopy (h : Heap) (dst src : Slice) : Heap :=
  h.writeAt dst.arr dst.off ((h.read src).take (min dst.len src.len))

/-! ## The package -/

/-- Go `func NewBytes(sz uint64) *Bytes`, that is `&Bytes{Data: make([]byte, sz)}`.
The built-in `make` panics at run time (`makeslice: len out of range`) when `sz`
is not a length the runtime allocates; `maxLen` is that limit of the runtime, which
is at most the largest `int`.  Within the limit the allocation succeeds: memory is
not bounded in this model. -/
def NewBytes (maxLen : Nat) (sz : Nat) (h : Heap) : Outcome Nat × Heap :=
  if sz ≤ maxLen then
    let fresh := h.newArray (List.replicate sz 0)
    let r := fresh.2.newObj { Data := ⟨fresh.1, 0, sz, sz⟩, Invalid := false }
    (.ok r.1, r.2)
  else (.fail .OutOfBounds, h)

/-- Go `func Data(data []byte) *Bytes`. -/
def Data (data : Slice) (h : Heap) : Nat × Heap :=
  h.newObj { Data := data, Invalid := false }

/-- Go `func (bs *Bytes) Len() uint64`. -/
def Len (bs : Nat) (h : Heap) : Outcome Nat × Heap :=
  match h.objs[bs]? with
  | none => (.fail .NilDeref, h)
  | some b => (.ok (u64 b.Data.len), h)

/-- Go `func (bs *Bytes) Get(i uint64) byte`. -/
def Get (bs : Nat) (i : Nat) (h : Heap) : Outcome Byte × Heap :=
  match h.objs[bs]? with
  | none => (.fail .NilDeref, h)
  | some b =>
    if b.Invalid then (.fail .Invalidated, h)
    else if i < b.Data.len then (.ok ((h.array b.Data.arr).getD (b.Data.off + i) 0), h)
    else (.fail .OutOfBounds, h)

/-- Go `func (bs *Bytes) Set(i uint64, b byte)`. -/
def Set (bs : Nat) (i : Nat) (v : Byte) (h : Heap) : Outcome Unit × Heap :=
  match h.objs[bs]? with
  | none => (.fail .NilDeref, h)
  | some b =>
    if b.Invalid then (.fail .Invalidated, h)
    else if i < b.Data.len then
      (.ok (), h.store b.Data.arr (b.Data.off + i) v)
    else (.fail .OutOfBounds, h)

/-- Go `func (bs *Bytes) Append(b byte)`. -/
def Append (grow : Nat → Nat → Nat) (bs : Nat) (v : Byte) (h : Heap) :
    Outcome Unit × Heap :=
  match h.objs[bs]? with
  | none => (.fail .NilDeref, h)
  | some b =>
    if b.Invalid then (.fail .Invalidated, h)
    else
      let r := goAppend grow h b.Data [v]
      (.ok (), r.2.setData bs b r.1)

/-- Go `func (bs *Bytes) AppendBytes(other *Bytes)`.  The test
`bs.Invalid || other.Invalid` short-circuits: `other` is dereferenced only
when `bs` is valid. -/
def AppendBytes (grow : Nat → Nat → Nat) (bs other : Nat) (h : Heap) :
    Outcome Unit × Heap :=
  match h.objs[bs]? with
  | none => (.fail .NilDeref, h)
  | some b =>
    if b.Invalid then (.fail .Invalidated, h)
    else
      match h.objs[other]? with
      | none => (.fail .NilDeref, h)
      | some o =>
        if o.Invalid then (.fail .Invalidated, h)
        else if other = bs then (.fail .SelfAliasing, h)
        else
          let r := goAppend grow h b.Data (h.read o.Data)
          (.ok (), r.2.setData bs b r.1)

/-- Go `func (bs *Bytes) Subslice(start uint64, end uint64)`. -/
def Subslice (bs : Nat) (start stop : Nat) (h : Heap) : Outcome Unit × Heap :=
  match h.objs[bs]? with
  | none => (.fail .NilDeref, h)
  | some b =>
    if b.Invalid then (.fail .Invalidated, h)
    else
      match b.Data.slice start stop with
      | none => (.fail .OutOfBounds, h)
      | some s => (.ok (), h.setData bs b s)

/-- Go `func (bs *Bytes) CopySegment(dst uint64, other *Bytes, src uint64, count uint64)`.
The two slice expressions `bs.Data[dst:]` and `other.Data[src:src+count]` are
evaluated, in this order, before `copy` runs; `src+count` is a `uint64` sum. -/
def CopySegment (bs : Nat) (dst : Nat) (other : Nat) (src count : Nat) (h : Heap) :
    Outcome Unit × Heap :=
  match h.objs[bs]? with
  | none => (.fail .NilDeref, h)
  | some b =>
    if b.Invalid then (.fail .Invalidated, h)
    else
      match h.objs[other]? with
      | none => (.fail .NilDeref, h)
      | some o =>
        if o.Invalid then (.fail .Invalidated, h)
        else if other = bs then (.fail .SelfAliasing, h)
        else
          match b.Data.sliceFrom dst with
          | none => (.fail .OutOfBounds, h)
          | some d =>
            match o.Data.slice src (u64 (src + count)) with
            | none => (.fail .OutOfBounds, h)
            | some s => (.ok (), goCopy h d s)

/-- Go `func (bs *Bytes) Split(off uint64) *Bytes`: `first := bs.Data[:off:off]`,
`second := bs.Data[off:]`, `bs.Data = first`, `return &Bytes{Data: second}`. -/
def Split (bs : Nat) (off : Nat) (h : Heap) : Outcome Nat × Heap :=
  match h.objs[bs]? with
  | none => (.fail .NilDeref, h)
  | some b =>
    if b.Invalid then (.fail .Invalidated, h)
    else
      match b.Data.slice3 0 off off with
      | none => (.fail .OutOfBounds, h)
      | some first =>
        match b.Data.sliceFrom off with
        | none => (.fail .OutOfBounds, h)
        | some second =>
          let r := (h.setData bs b first).newObj { Data := second, Invalid := false }
          (.ok r.1, r.2)

/-! ## Observations used in the statements -/

/-- The content of the buffer at pointer `p`: the bytes visible through its
`Data` slice (what `Get` returns for the indices below `Len`). -/
def Heap.content (h : Heap) (p : Nat) : List Byte :=
  match h.objs[p]? with
  | some b => h.read b.Data
  | none => []

/-- A slice header is well formed in a heap, as every Go slice is: its backing
array exists, its capacity window lies inside that array, and its length does
not exceed its capacity. -/
def Heap.WFSlice (h : Heap) (s : Slice) : Prop :=
  s.arr < h.arrays.length ∧ s.off + s.cap ≤ (h.array s.arr).length ∧ s.len ≤ s.cap

instance (h : Heap) (s : Slice) : Decidable (h.WFSlice s) :=
  inferInstanceAs (Decidable (_ ∧ _ ∧ _))

/-- The slice literal `[]byte{...}`: a new backing array holding exactly the
given bytes, and the slice over all of it. -/
def sliceLit (bytes : List Byte) (h : Heap) : Slice × Heap :=
  let fresh := h.newArray bytes
  ({ arr := fresh.1, off := 0, len := bytes.length, cap := bytes.length }, fresh.2)

/-- The call `Data([]byte{...})`: wrap a slice literal. -/
def DataLit (bytes : List Byte) (h : Heap) : Nat × Heap :=
  let r := sliceLit bytes h
  Data r.1 r.2

/-- The calls `bs.Append(v)` for the bytes `v` of `vs`, one after the other;
a panic ends the sequence. -/
def AppendAll (grow : Nat → Nat → Nat) (bs : Nat) : List Byte → Heap → Outcome Unit × Heap
  | [], h => (.ok (), h)
  | v :: vs, h =>
    match Append grow bs v h with
    | (.ok _, h1) => AppendAll grow bs vs h1
    | (.fail e, h1) => (.fail e, h1)

/-- The buffer `bs` is live and valid and cannot reach the backing array of the
buffer `r` by appending in place: either it lives in another backing array or
it has no spare capacity.  The object `rb` at `r` and the backing array `A` of
`r` are recorded. -/
def Apart (h : Heap) (bs r : Nat) (rb : Bytes) (A : List Byte) : Prop :=
  bs ≠ r ∧ h.objs[r]? = some rb ∧ h.arrays[rb.Data.arr]? = some A ∧
  ∃ b, h.objs[bs]? = some b ∧ b.Invalid = false ∧
    (b.Data.arr ≠ rb.Data.arr ∨ b.Data.cap ≤ b.Data.len)

/-- Two slice headers own disjoint storage: they live in different backing
arrays, or their capacity windows do not overlap. -/
def Separate (s t : Slice) : Prop :=
  s.arr ≠ t.arr ∨ s.off + s.cap ≤ t.off ∨ t.off + t.cap ≤ s.off

instance (s t : Slice) : Decidable (Separate s t) :=
  inferInstanceAs (Decidable (_ ∨ _ ∨ _))

/-- A call of one of the methods of `Bytes`, with its arguments. -/
inductive Call where
  | Len (bs : Nat)
  | Get (bs i : Nat)
  | Set (bs i : Nat) (v : Byte)
  | Append (bs : Nat) (v : Byte)
  | AppendBytes (bs other : Nat)
  | Subslice (bs start stop : Nat)
  | CopySegment (bs dst other src count : Nat)
  | Split (bs off : Nat)
  deriving DecidableEq, Repr

/-- The heap after a call, whether it returned or panicked. -/
def Call.run (grow : Nat → Nat → Nat) : Call → Heap → Heap
  | .Len bs, h => (DafnyGo.Len bs h).2
  | .Get bs i, h => (DafnyGo.Get bs i h).2
  | .Set bs i v, h => (DafnyGo.Set bs i v h).2
  | .Append bs v, h => (DafnyGo.Append grow bs v h).2
  | .AppendBytes bs other, h => (DafnyGo.AppendBytes grow bs other h).2
  | .Subslice bs start stop, h => (DafnyGo.Subslice bs start stop h).2
  | .CopySegment bs dst other src count, h => (DafnyGo.CopySegment bs dst other src count h).2
  | .Split bs off, h => (DafnyGo.Split bs off h).2

/-- The heap after a sequence of calls, made one after the other. -/
def runCalls (grow : Nat → Nat → Nat) : List Call → Heap → Heap
  | [], h => h
  | c :: cs, h => runCalls grow cs (c.run grow h)

/-- The call is a `Set`, `Append` or `Subslice` on the buffer `p`. -/
def Call.mutates (p : Nat) : Call → Bool
  | .Set bs _ _ => decide (bs = p)
  | .Append bs _ => decide (bs = p)
  | .Subslice bs _ _ => decide (bs = p)
  | _ => false

/-- The storage window of a slice: the `cap` elements of its backing array from
`off` on. -/
def Heap.window (h : Heap) (s : Slice) : List Byte :=
  ((h.array s.arr).drop s.off).take s.cap

/-- The validity marker of the object at pointer `p`, if there is one. -/
def Heap.marker (h : Heap) (p : Nat) : Option Bool :=
  (h.objs[p]?).map Bytes.Invalid

/-- The buffer `q` is out of reach of the buffer `p`: they are distinct objects,
the slice of `p` is well formed, and the storage windows of the two slices are
disjoint.  The object `qb` at `q` and the bytes `W` in its storage window are
recorded. -/
def Indep (h : Heap) (p q : Nat) (qb : Bytes) (W : List Byte) : Prop :=
  p ≠ q ∧ h.objs[q]? = some qb ∧ qb.Data.arr < h.arrays.length ∧ h.window qb.Data = W ∧
  ∃ pb, h.objs[p]? = some pb ∧ h.WFSlice pb.Data ∧ Separate pb.Data qb.Data

/-- The largest `int` of 64-bit Go. -/
def maxInt : Nat := 2 ^ 63 - 1

/-- The empty heap. -/
def Heap.empty : Heap := { arrays := [], objs := [] }

/-! ## Example heaps -/

/-- The heap after `b := Data([]byte{1,2,3,4,5})`; `b` is pointer `0`. -/
def heap12345 : Heap := (DataLit [1, 2, 3, 4, 5] Heap.empty).2

/-- The heap after `b := Data([]byte{1,2,3})`; `b` is pointer `0`. -/
def heap123 : Heap := (DataLit [1, 2, 3] Heap.empty).2

/-- The heap after `c := Data([]byte{10,20,30})` and `d := Data([]byte{0,0,0,0})`;
`c` is pointer `0` and `d` is pointer `1`. -/
def heapCD : Heap := (DataLit [0, 0, 0, 0] (DataLit [10, 20, 30] Heap.empty).2).2

/-- The heap after `o := Data([]byte{1,2,3})`, `s := Data([]byte{0,0,0})` and
`o.Subslice(0, 1)`: `o` is pointer `0` and now has length `1` and capacity `3`;
`s` is pointer `1`. -/
def heapNarrowed : Heap :=
  (Subslice 0 0 1 (DataLit [0, 0, 0] (DataLit [1, 2, 3] Heap.empty).2).2).2

/-- A heap with the valid buffer `[1,2,3]` at pointer `0` and a buffer at pointer
`1` whose marker has been cleared by its caller. -/
def heapInvalid : Heap :=
  { arrays := [[1, 2, 3], [4, 5]],
    objs := [⟨⟨0, 0, 3, 3⟩, false⟩, ⟨⟨1, 0, 2, 2⟩, true⟩] }

/-- The heap after `s := []byte{1,2,3,4,5}`, `d := Data(s[1:5])` and
`c := Data(s[0:4])`: two distinct valid buffers over one backing array, `d` at
pointer `0` and `c` at pointer `1`. -/
def heapSharedCopy : Heap :=
  (Data ⟨0, 0, 4, 5⟩ (Data ⟨0, 1, 4, 4⟩ (sliceLit [1, 2, 3, 4, 5] Heap.empty).2).2).2

/-- The heap after `s := []byte{1,2,3,4,5}`, `b := Data(s[:2])` and
`o := Data(s[1:4])`: two distinct valid buffers over one backing array, `b` at
pointer `0` and `o` at pointer `1`. -/
def heapSharedAppend : Heap :=
  (Data ⟨0, 1, 3, 4⟩ (Data ⟨0, 0, 2, 5⟩ (sliceLit [1, 2, 3, 4, 5] Heap.empty).2).2).2

/-- A growth policy for the examples: double the capacity. -/
def growDouble (c _need : Nat) : Nat := 2 * c

/-! ## Split -/

theorem content_eq (h : Heap) (p : Nat) (b : Bytes) (hb : h.objs[p]? = some b) :
    h.content p = h.read b.Data := by
  simp [Heap.content, hb]

theorem lt_of_getElem?_eq_some {α : Type} {l : List α} {i : Nat} {a : α}
    (hl : l[i]? = some a) : i < l.length := by
  by_contra hc
  rw [List.getElem?_eq_none (by omega)] at hl
  exact absurd hl (by simp)

/-- Split on a live, valid, well-formed buffer at an offset within its length:
the explicit result and heap. -/
theorem Split_eq (h : Heap) (bs : Nat) (b : Bytes) (off : Nat)
    (hb : h.objs[bs]? = some b) (hv : b.Invalid = false)
    (hlc : b.Data.len ≤ b.Data.cap) (hoff : off ≤ b.Data.len) :
    Split bs off h =
      (.ok h.objs.length,
       { arrays := h.arrays,
         objs := h.objs.set bs { Data := { arr := b.Data.arr, off := b.Data.off,
                                           len := off, cap := off },
                                 Invalid := false } ++
                 [{ Data := { arr := b.Data.arr, off := b.Data.off + off,
                              len := b.Data.len - off, cap := b.Data.cap - off },
                    Invalid := false }] }) := by
  have h3 : b.Data.slice3 0 off off =
      some ⟨b.Data.arr, b.Data.off, off, off⟩ := by
    simp [Slice.slice3]; omega
  have h2 : b.Data.sliceFrom off =
      some ⟨b.Data.arr, b.Data.off + off, b.Data.len - off, b.Data.cap - off⟩ := by
    simp [Slice.sliceFrom, hoff]
  simp [Split, hb, hv, h3, h2, Heap.setData, Heap.newObj]

/-- C1. Split content preservation: for a valid buffer `bs` with content `C`
and an offset `off <= Len(bs)`, `Split` succeeds with a new buffer `r`; afterwards
the content of `bs` is `C[0:off]`, the content of `r` is `C[off:]`, and the content
of `bs` followed by the content of `r` is `C`. -/
theorem Split_content (h : Heap) (bs : Nat) (b : Bytes) (off : Nat)
    (hb : h.objs[bs]? = some b) (hv : b.Invalid = false)
    (hwf : h.WFSlice b.Data) (hoff : off ≤ b.Data.len) :
    ∃ r, (Split bs off h).1 = .ok r ∧
      (Split bs off h).2.content bs = (h.content bs).take off ∧
      (Split bs off h).2.content r = (h.content bs).drop off ∧
      (Split bs off h).2.content bs ++ (Split bs off h).2.content r = h.content bs := by
  have hlt := lt_of_getElem?_eq_some hb
  rw [Split_eq h bs b off hb hv hwf.2.2 hoff]
  have hC : h.content bs = ((h.array b.Data.arr).drop b.Data.off).take b.Data.len := by
    rw [content_eq h bs b hb]; rfl
  have hL : (Heap.mk h.arrays (h.objs.set bs ⟨⟨b.Data.arr, b.Data.off, off, off⟩, false⟩ ++
      [⟨⟨b.Data.arr, b.Data.off + off, b.Data.len - off, b.Data.cap - off⟩, false⟩])).content bs
      = (h.content bs).take off := by
    rw [content_eq _ bs ⟨⟨b.Data.arr, b.Data.off, off, off⟩, false⟩
      (by simp [List.getElem?_append_left, hlt]), hC]
    simp [Heap.read, Heap.array, List.take_take, hoff]
  have hR : (Heap.mk h.arrays (h.objs.set bs ⟨⟨b.Data.arr, b.Data.off, off, off⟩, false⟩ ++
      [⟨⟨b.Data.arr, b.Data.off + off, b.Data.len - off, b.Data.cap - off⟩, false⟩])).content
        h.objs.length = (h.content bs).drop off := by
    rw [content_eq _ h.objs.length
      ⟨⟨b.Data.arr, b.Data.off + off, b.Data.len - off, b.Data.cap - off⟩, false⟩
      (by simp [List.getElem?_append_right]), hC]
    simp [Heap.read, Heap.array, List.drop_take, Nat.add_comm]
  refine ⟨h.objs.length, rfl, hL, hR, ?_⟩
  rw [hL, hR, List.take_append_drop]

/-- Witness for C1: `Data([1,2,3,4,5]).Split(2)` leaves `b = [1,2]` and returns
`r = [3,4,5]`. -/
theorem Split_content_witness :
    (heap12345.objs[0]? = some ⟨⟨0, 0, 5, 5⟩, false⟩ ∧ heap12345.content 0 = [1, 2, 3, 4, 5]) ∧
    (Split 0 2 heap12345).1 = .ok 1 ∧
    (Split 0 2 heap12345).2.content 0 = [1, 2] ∧
    (Split 0 2 heap12345).2.content 1 = [3, 4, 5] ∧
    ∃ r, (Split 0 2 heap12345).1 = .ok r ∧
      (Split 0 2 heap12345).2.content 0 = (heap12345.content 0).take 2 ∧
      (Split 0 2 heap12345).2.content r = (heap12345.content 0).drop 2 ∧
      (Split 0 2 heap12345).2.content 0 ++ (Split 0 2 heap12345).2.content r
        = heap12345.content 0 :=
  ⟨by decide, by decide, by decide, by decide,
   Split_content heap12345 0 ⟨⟨0, 0, 5, 5⟩, false⟩ 2 (by decide) (by decide) (by decide)
     (by decide)⟩

/-! ## Append after Split -/

theorem Append_eq (grow : Nat → Nat → Nat) (h : Heap) (bs : Nat) (b : Bytes) (v : Byte)
    (hb : h.objs[bs]? = some b) (hv : b.Invalid = false) :
    Append grow bs v h =
      (.ok (), (goAppend grow h b.Data [v]).2.setData bs b (goAppend grow h b.Data [v]).1) := by
  simp [Append, hb, hv]

theorem goAppend_fit (grow : Nat → Nat → Nat) (h : Heap) (s : Slice) (vs : List Byte)
    (hfit : s.len + vs.length ≤ s.cap) :
    goAppend grow h s vs =
      (⟨s.arr, s.off, s.len + vs.length, s.cap⟩, h.writeAt s.arr (s.off + s.len) vs) := by
  simp [goAppend, hfit]

theorem goAppend_grow (grow : Nat → Nat → Nat) (h : Heap) (s : Slice) (vs : List Byte)
    (hfit : ¬ s.len + vs.length ≤ s.cap) :
    goAppend grow h s vs =
      (⟨h.arrays.length, 0, s.len + vs.length,
          max (s.len + vs.length) (grow s.cap (s.len + vs.length))⟩,
        ⟨h.arrays ++ [h.read s ++ vs ++ List.replicate
          (max (s.len + vs.length) (grow s.cap (s.len + vs.length)) - (s.len + vs.length)) 0],
          h.objs⟩) := by
  simp [goAppend, hfit, Heap.newArray]

theorem Append_apart (grow : Nat → Nat → Nat) (h : Heap) (bs r : Nat) (rb : Bytes)
    (A : List Byte) (v : Byte) (hI : Apart h bs r rb A) :
    (Append grow bs v h).1 = .ok () ∧ Apart (Append grow bs v h).2 bs r rb A := by
  obtain ⟨hne, hr, hA, b, hb, hv, hsep⟩ := hI
  have hlt := lt_of_getElem?_eq_some hb
  have hltA := lt_of_getElem?_eq_some hA
  rw [Append_eq grow h bs b v hb hv]
  refine ⟨rfl, hne, ?_⟩
  by_cases hfit : b.Data.len + [v].length ≤ b.Data.cap
  · have hna : b.Data.arr ≠ rb.Data.arr := by
      rcases hsep with h1 | h1
      · exact h1
      · simp at hfit; omega
    rw [goAppend_fit grow h b.Data [v] hfit]
    refine ⟨?_, ?_, ⟨⟨b.Data.arr, b.Data.off, b.Data.len + [v].length, b.Data.cap⟩, b.Invalid⟩,
      ?_, hv, Or.inl hna⟩
    · simp [Heap.setData, Heap.writeAt, List.getElem?_set_ne hne, hr]
    · simp [Heap.setData, Heap.writeAt, List.getElem?_set_ne hna, hA]
    · simp [Heap.setData, Heap.writeAt, hlt]
  · rw [goAppend_grow grow h b.Data [v] hfit]
    refine ⟨?_, ?_, ⟨⟨h.arrays.length, 0, b.Data.len + [v].length,
      max (b.Data.len + [v].length) (grow b.Data.cap (b.Data.len + [v].length))⟩, b.Invalid⟩,
      ?_, hv, Or.inl ?_⟩
    · simp [Heap.setData, List.getElem?_set_ne hne, hr]
    · simp [Heap.setData, List.getElem?_append_left hltA, hA]
    · simp [Heap.setData, hlt]
    · show h.arrays.length ≠ rb.Data.arr
      omega

theorem AppendAll_apart (grow : Nat → Nat → Nat) (bs r : Nat) (rb : Bytes)
    (A : List Byte) (vs : List Byte) :
    ∀ h : Heap, Apart h bs r rb A →
      (AppendAll grow bs vs h).1 = .ok () ∧ Apart (AppendAll grow bs vs h).2 bs r rb A := by
  induction vs with
  | nil => intro h hI; exact ⟨rfl, hI⟩
  | cons v vs ih =>
    intro h hI
    have hstep := Append_apart grow h bs r rb A v hI
    rw [AppendAll]
    rcases hA : Append grow bs v h with ⟨o, h1⟩
    rw [hA] at hstep
    cases o with
    | ok u => exact ih h1 hstep.2
    | fail e => exact absurd hstep.1 (by simp)

theorem Apart_content (h : Heap) (bs r : Nat) (rb : Bytes) (A : List Byte)
    (hI : Apart h bs r rb A) :
    h.content r = (A.drop rb.Data.off).take rb.Data.len := by
  obtain ⟨-, hr, hA, -⟩ := hI
  rw [content_eq h r rb hr]
  simp [Heap.read, Heap.array, List.getD_eq_getElem?_getD, hA]

/-- C2. Split capacity independence: for a valid buffer `bs` in any state (spare
capacity included) and an offset `off <= Len(bs)`, after `r = bs.Split(off)` any
sequence of `Append` calls on `bs`, with any bytes and any growth policy of the
runtime, runs to completion and changes neither the length nor any byte observable
through `r`. -/
theorem Split_Append_independent (grow : Nat → Nat → Nat) (h : Heap) (bs : Nat) (b : Bytes)
    (off : Nat) (hb : h.objs[bs]? = some b) (hv : b.Invalid = false)
    (hwf : h.WFSlice b.Data) (hoff : off ≤ b.Data.len) (vs : List Byte) :
    ∃ r, (Split bs off h).1 = .ok r ∧
      (AppendAll grow bs vs (Split bs off h).2).1 = .ok () ∧
      (AppendAll grow bs vs (Split bs off h).2).2.content r = (Split bs off h).2.content r ∧
      (Len r (AppendAll grow bs vs (Split bs off h).2).2).1 = (Len r (Split bs off h).2).1 := by
  have hlt := lt_of_getElem?_eq_some hb
  have hI : Apart (Split bs off h).2 bs h.objs.length
      ⟨⟨b.Data.arr, b.Data.off + off, b.Data.len - off, b.Data.cap - off⟩, false⟩
      (h.array b.Data.arr) := by
    rw [Split_eq h bs b off hb hv hwf.2.2 hoff]
    refine ⟨by omega, by simp, ?_, ⟨⟨b.Data.arr, b.Data.off, off, off⟩, false⟩, ?_, rfl,
      Or.inr (le_refl _)⟩
    · simp [Heap.array, List.getD_eq_getElem?_getD, List.getElem?_eq_getElem hwf.1]
    · simp [List.getElem?_append_left, hlt]
  have hJ := AppendAll_apart grow bs h.objs.length _ _ vs _ hI
  refine ⟨h.objs.length, ?_, hJ.1, ?_, ?_⟩
  · rw [Split_eq h bs b off hb hv hwf.2.2 hoff]
  · rw [Apart_content _ _ _ _ _ hJ.2, Apart_content _ _ _ _ _ hI]
  · simp [Len, hJ.2.2.1, hI.2.1]

/-- Witness for C2: after `Data([1,2,3,4,5]).Split(2)`, `b.Append(9)` gives `b = [1,2,9]`
while `r` is still `[3,4,5]`. -/
theorem Split_Append_independent_witness :
    (heap12345.objs[0]? = some ⟨⟨0, 0, 5, 5⟩, false⟩ ∧ heap12345.WFSlice ⟨0, 0, 5, 5⟩) ∧
    (AppendAll growDouble 0 [9] (Split 0 2 heap12345).2).2.content 0 = [1, 2, 9] ∧
    (AppendAll growDouble 0 [9] (Split 0 2 heap12345).2).2.content 1 = [3, 4, 5] ∧
    ∃ r, (Split 0 2 heap12345).1 = .ok r ∧
      (AppendAll growDouble 0 [9] (Split 0 2 heap12345).2).1 = .ok () ∧
      (AppendAll growDouble 0 [9] (Split 0 2 heap12345).2).2.content r
        = (Split 0 2 heap12345).2.content r ∧
      (Len r (AppendAll growDouble 0 [9] (Split 0 2 heap12345).2).2).1
        = (Len r (Split 0 2 heap12345).2).1 :=
  ⟨by decide, by decide, by decide,
   Split_Append_independent growDouble heap12345 0 ⟨⟨0, 0, 5, 5⟩, false⟩ 2 (by decide)
     (by decide) (by decide) (by decide) [9]⟩

/-! ## Lists: overwriting a range, reading a window -/

theorem overwrite_getElem? (A vs : List Byte) (i k : Nat) (hi : i + vs.length ≤ A.length) :
    (overwrite A i vs)[k]? =
      if k < i then A[k]? else if k < i + vs.length then vs[k - i]? else A[k]? := by
  unfold overwrite
  have hmin : min i A.length = i := by omega
  rw [List.getElem?_append, List.getElem?_append]
  simp only [List.length_append, List.length_take, List.getElem?_take, List.getElem?_drop, hmin]
  by_cases h1 : k < i
  · have h2 : k < i + vs.length := by omega
    simp [h1, h2]
  · by_cases h2 : k < i + vs.length
    · simp [h1, h2]
    · have h3 : i + vs.length + (k - (i + vs.length)) = k := by omega
      simp [h1, h2, h3]

theorem window_getElem? (A : List Byte) (o L k : Nat) :
    ((A.drop o).take L)[k]? = if k < L then A[o + k]? else none := by
  rw [List.getElem?_take, List.getElem?_drop]

theorem overwrite_length (A vs : List Byte) (i : Nat) (hi : i + vs.length ≤ A.length) :
    (overwrite A i vs).length = A.length := by
  simp [overwrite]; omega

/-- Reading a window that contains the overwritten range. -/
theorem read_overwrite_inside (A vs : List Byte) (o d L : Nat)
    (h1 : d + vs.length ≤ L) (h2 : o + L ≤ A.length) :
    ((overwrite A (o + d) vs).drop o).take L = overwrite ((A.drop o).take L) d vs := by
  have hlen : ((A.drop o).take L).length = L := by simp; omega
  apply List.ext_getElem?
  intro k
  rw [window_getElem?, overwrite_getElem? A vs (o + d) (o + k) (by omega),
    overwrite_getElem? _ vs d k (by omega), window_getElem?]
  by_cases hk : k < L
  · by_cases h3 : k < d
    · have h4 : o + k < o + d := by omega
      simp [hk, h3, h4]
    · have h4 : ¬ o + k < o + d := by omega
      have h5 : o + k - (o + d) = k - d := by omega
      by_cases h6 : k < d + vs.length
      · have h7 : o + k < o + d + vs.length := by omega
        simp [hk, h3, h4, h5, h6, h7]
      · have h7 : ¬ o + k < o + d + vs.length := by omega
        simp [hk, h3, h4, h6, h7]
  · have h3 : ¬ k < d := by omega
    have h6 : ¬ k < d + vs.length := by omega
    simp [hk, h3, h6]

/-- Reading a window that is disjoint from the overwritten range. -/
theorem read_overwrite_outside (A vs : List Byte) (i o L : Nat)
    (hi : i + vs.length ≤ A.length) (hd : o + L ≤ i ∨ i + vs.length ≤ o) :
    ((overwrite A i vs).drop o).take L = (A.drop o).take L := by
  apply List.ext_getElem?
  intro k
  rw [window_getElem?, overwrite_getElem? A vs i (o + k) hi, window_getElem?]
  by_cases hk : k < L
  · rcases hd with hd | hd
    · have h4 : o + k < i := by omega
      simp [hk, h4]
    · have h4 : ¬ o + k < i := by omega
      have h7 : ¬ o + k < i + vs.length := by omega
      simp [hk, h4, h7]
  · simp [hk]

/-! ## CopySegment -/

theorem u64_le (n : Nat) : u64 n ≤ n := Nat.mod_le _ _

theorem u64_lt (n : Nat) : u64 n < 2 ^ 64 := Nat.mod_lt _ (by norm_num)

theorem u64_of_lt (n : Nat) (hn : n < 2 ^ 64) : u64 n = n := Nat.mod_eq_of_lt hn

/-- CopySegment on two live, valid, distinct buffers when both slice expressions
are in bounds: the explicit result and heap. -/
theorem CopySegment_eq (h : Heap) (bs other : Nat) (b o : Bytes) (dst src count : Nat)
    (hb : h.objs[bs]? = some b) (ho : h.objs[other]? = some o)
    (hbv : b.Invalid = false) (hov : o.Invalid = false) (hne : other ≠ bs)
    (hd : dst ≤ b.Data.len) (hlow : src ≤ u64 (src + count))
    (hhigh : u64 (src + count) ≤ o.Data.cap) :
    CopySegment bs dst other src count h =
      (.ok (), h.writeAt b.Data.arr (b.Data.off + dst)
        ((h.read ⟨o.Data.arr, o.Data.off + src, u64 (src + count) - src, o.Data.cap - src⟩).take
          (min (b.Data.len - dst) (u64 (src + count) - src)))) := by
  have h1 : b.Data.sliceFrom dst =
      some ⟨b.Data.arr, b.Data.off + dst, b.Data.len - dst, b.Data.cap - dst⟩ := by
    simp [Slice.sliceFrom, hd]
  have h2 : o.Data.slice src (u64 (src + count)) =
      some ⟨o.Data.arr, o.Data.off + src, u64 (src + count) - src, o.Data.cap - src⟩ := by
    simp [Slice.slice, hlow, hhigh]
  simp [CopySegment, hb, ho, hbv, hov, hne, h1, h2, goCopy]

/-- CopySegment on two live, valid, distinct buffers panics exactly when one of
the two slice expressions is out of bounds, and then it is an out-of-bounds
panic that leaves the heap as it was. -/
theorem CopySegment_fail_iff (h : Heap) (bs other : Nat) (b o : Bytes) (dst src count : Nat)
    (hb : h.objs[bs]? = some b) (ho : h.objs[other]? = some o)
    (hbv : b.Invalid = false) (hov : o.Invalid = false) (hne : other ≠ bs) :
    (CopySegment bs dst other src count h = (.fail .OutOfBounds, h) ↔
      (b.Data.len < dst ∨ u64 (src + count) < src ∨ o.Data.cap < u64 (src + count))) ∧
    ((CopySegment bs dst other src count h).1 = .ok () ↔
      ¬ (b.Data.len < dst ∨ u64 (src + count) < src ∨ o.Data.cap < u64 (src + count))) := by
  by_cases hd : dst ≤ b.Data.len
  · by_cases hs : src ≤ u64 (src + count) ∧ u64 (src + count) ≤ o.Data.cap
    · rw [CopySegment_eq h bs other b o dst src count hb ho hbv hov hne hd hs.1 hs.2]
      have : ¬ (b.Data.len < dst ∨ u64 (src + count) < src ∨ o.Data.cap < u64 (src + count)) := by
        omega
      simp [this]
    · have h1 : b.Data.sliceFrom dst =
          some ⟨b.Data.arr, b.Data.off + dst, b.Data.len - dst, b.Data.cap - dst⟩ := by
        simp [Slice.sliceFrom, hd]
      have h2 : o.Data.slice src (u64 (src + count)) = none := by
        simp only [Slice.slice, hs, if_false]
      have : b.Data.len < dst ∨ u64 (src + count) < src ∨ o.Data.cap < u64 (src + count) := by
        omega
      simp [CopySegment, hb, ho, hbv, hov, hne, h1, h2, this]
  · have h1 : b.Data.sliceFrom dst = none := by
      simp only [Slice.sliceFrom, hd, if_false]
    have : b.Data.len < dst ∨ u64 (src + count) < src ∨ o.Data.cap < u64 (src + count) := by
      omega
    simp [CopySegment, hb, ho, hbv, hov, hne, h1, this]

theorem array_set_self (h : Heap) (a : Nat) (l : List Byte) (ha : a < h.arrays.length) :
    (Heap.mk (h.arrays.set a l) h.objs).array a = l := by
  simp [Heap.array, ha]

theorem array_set_ne (h : Heap) (a c : Nat) (l : List Byte) (hne : a ≠ c) :
    (Heap.mk (h.arrays.set a l) h.objs).array c = h.array c := by
  simp [Heap.array, List.getElem?_set_ne hne]

/-- C3, counterexample. With `s = [1,2,3,4,5]`, `d = Data(s[1:5])` and
`c = Data(s[0:4])`, two valid, distinct buffers, the call `d.CopySegment(0, c, 0, 4)`
is within the bounds of both and succeeds, `d` becomes `[1,2,3,4]` as requested,
but `other` is not unchanged: `c` goes from `[1,2,3,4]` to `[1,1,2,3]`. -/
theorem CopySegment_exact_counterexample :
    ((sliceLit [1, 2, 3, 4, 5] Heap.empty).1.slice 1 5 = some ⟨0, 1, 4, 4⟩ ∧
      (sliceLit [1, 2, 3, 4, 5] Heap.empty).1.slice 0 4 = some ⟨0, 0, 4, 5⟩) ∧
    heapSharedCopy.objs[0]? = some ⟨⟨0, 1, 4, 4⟩, false⟩ ∧
    heapSharedCopy.objs[1]? = some ⟨⟨0, 0, 4, 5⟩, false⟩ ∧
    heapSharedCopy.WFSlice ⟨0, 1, 4, 4⟩ ∧ heapSharedCopy.WFSlice ⟨0, 0, 4, 5⟩ ∧
    (Len 0 heapSharedCopy).1 = .ok 4 ∧ (Len 1 heapSharedCopy).1 = .ok 4 ∧
    0 + 4 ≤ 4 ∧
    heapSharedCopy.content 0 = [2, 3, 4, 5] ∧
    heapSharedCopy.content 1 = [1, 2, 3, 4] ∧
    (CopySegment 0 0 1 0 4 heapSharedCopy).1 = .ok () ∧
    (CopySegment 0 0 1 0 4 heapSharedCopy).2.content 0 = [1, 2, 3, 4] ∧
    (CopySegment 0 0 1 0 4 heapSharedCopy).2.content 1 = [1, 1, 2, 3] ∧
    (CopySegment 0 0 1 0 4 heapSharedCopy).2.content 1 ≠ heapSharedCopy.content 1 := by
  decide

/-- C3, amended. CopySegment writes exactly the requested range: for valid,
distinct buffers `bs` (content `S`) and `other` (content `O`) with
`dst + count <= Len(bs)` and `src + count <= Len(other)`, the call succeeds;
afterwards the content of `bs` is `S` with positions `dst .. dst+count-1` replaced
by `O[src .. src+count-1]` and every other position as before, no object (length,
marker) has changed, and `Len(bs)` is as before.  The content of `other` is as
before provided the two buffers own disjoint storage (different backing arrays,
or capacity windows that do not overlap). -/
theorem CopySegment_exact (h : Heap) (bs other : Nat) (b o : Bytes) (dst src count : Nat)
    (hb : h.objs[bs]? = some b) (ho : h.objs[other]? = some o)
    (hbv : b.Invalid = false) (hov : o.Invalid = false) (hne : other ≠ bs)
    (hbw : h.WFSlice b.Data) (how : h.WFSlice o.Data)
    (hd : dst + count ≤ u64 b.Data.len) (hs : src + count ≤ u64 o.Data.len) :
    (CopySegment bs dst other src count h).1 = .ok () ∧
    (CopySegment bs dst other src count h).2.content bs =
      (h.content bs).take dst ++ ((h.content other).drop src).take count ++
        (h.content bs).drop (dst + count) ∧
    (CopySegment bs dst other src count h).2.objs = h.objs ∧
    (Len bs (CopySegment bs dst other src count h).2).1 = (Len bs h).1 ∧
    (Separate b.Data o.Data →
      (CopySegment bs dst other src count h).2.content other = h.content other) := by
  have hbl := u64_le b.Data.len
  have hol := u64_le o.Data.len
  have hu : u64 (src + count) = src + count :=
    u64_of_lt _ (lt_of_le_of_lt hs (u64_lt _))
  obtain ⟨hba, hbc, hblc⟩ := hbw
  obtain ⟨hoa, hoc, holc⟩ := how
  rw [CopySegment_eq h bs other b o dst src count hb ho hbv hov hne (by omega)
    (by omega) (by omega), hu]
  have hmin : min (b.Data.len - dst) (src + count - src) = count := by omega
  -- the bytes that are copied
  have hdata : (h.read ⟨o.Data.arr, o.Data.off + src, src + count - src, o.Data.cap - src⟩).take
      (min (b.Data.len - dst) (src + count - src)) = ((h.content other).drop src).take count := by
    rw [hmin, content_eq h other o ho]
    simp only [Heap.read, List.drop_take, List.take_take, List.drop_drop]
    congr 1
    omega
  rw [hdata]
  have hlen : (((h.content other).drop src).take count).length = count := by
    rw [content_eq h other o ho]
    simp [Heap.read]
    omega
  generalize ((h.content other).drop src).take count = D at hlen ⊢
  refine ⟨rfl, ?_, rfl, ?_, ?_⟩
  · rw [content_eq _ bs b (by simpa [Heap.writeAt] using hb), content_eq h bs b hb]
    simp only [Heap.read, Heap.writeAt]
    rw [array_set_self h _ _ hba,
      read_overwrite_inside _ _ _ _ _ (by rw [hlen]; omega) (by omega)]
    simp only [overwrite, hlen]
  · simp [Len, Heap.writeAt, hb]
  · intro hsep
    rw [content_eq _ other o (by simpa [Heap.writeAt] using ho), content_eq h other o ho]
    simp only [Heap.read, Heap.writeAt]
    by_cases harr : b.Data.arr = o.Data.arr
    · rw [← harr, array_set_self h _ _ hba]
      rw [harr] at hbc
      have hsep2 : b.Data.off + b.Data.cap ≤ o.Data.off ∨
          o.Data.off + o.Data.cap ≤ b.Data.off := by
        rcases hsep with h1 | h1
        · exact absurd harr h1
        · exact h1
      rw [harr]
      exact read_overwrite_outside _ _ _ _ _ (by rw [hlen]; omega) (by rw [hlen]; omega)
    · rw [array_set_ne h _ _ _ harr]

/-- Witness for the amended C3: with `d = [0,0,0,0]` and `c = [10,20,30]`,
`d.CopySegment(1, c, 0, 2)` gives `d = [0,10,20,0]` and leaves `c` as it was. -/
theorem CopySegment_exact_witness :
    (heapCD.objs[1]? = some ⟨⟨1, 0, 4, 4⟩, false⟩ ∧ heapCD.objs[0]? = some ⟨⟨0, 0, 3, 3⟩, false⟩ ∧
      heapCD.WFSlice ⟨1, 0, 4, 4⟩ ∧ heapCD.WFSlice ⟨0, 0, 3, 3⟩ ∧
      Separate ⟨1, 0, 4, 4⟩ ⟨0, 0, 3, 3⟩ ∧ 1 + 2 ≤ u64 4 ∧ 0 + 2 ≤ u64 3) ∧
    (CopySegment 1 1 0 0 2 heapCD).2.content 1 = [0, 10, 20, 0] ∧
    (CopySegment 1 1 0 0 2 heapCD).2.content 0 = [10, 20, 30] ∧
    ((CopySegment 1 1 0 0 2 heapCD).1 = .ok () ∧
      (CopySegment 1 1 0 0 2 heapCD).2.content 1 =
        (heapCD.content 1).take 1 ++ ((heapCD.content 0).drop 0).take 2 ++
          (heapCD.content 1).drop (1 + 2) ∧
      (CopySegment 1 1 0 0 2 heapCD).2.objs = heapCD.objs ∧
      (Len 1 (CopySegment 1 1 0 0 2 heapCD).2).1 = (Len 1 heapCD).1 ∧
      (CopySegment 1 1 0 0 2 heapCD).2.content 0 = heapCD.content 0) :=
  have T := CopySegment_exact heapCD 1 0 ⟨⟨1, 0, 4, 4⟩, false⟩ ⟨⟨0, 0, 3, 3⟩, false⟩ 1 0 2
    (by decide) (by decide) (by decide) (by decide) (by decide) (by decide) (by decide)
    (by decide) (by decide)
  ⟨by decide, by decide, by decide, T.1, T.2.1, T.2.2.1, T.2.2.2.1, T.2.2.2.2 (by decide)⟩

/-- CopySegment with both slice expressions in bounds copies
`min(Len(bs) - dst, count)` bytes, as the built-in `copy` does. -/
theorem CopySegment_clamped (h : Heap) (bs other : Nat) (b o : Bytes) (dst src count : Nat)
    (hb : h.objs[bs]? = some b) (ho : h.objs[other]? = some o)
    (hbv : b.Invalid = false) (hov : o.Invalid = false) (hne : other ≠ bs)
    (hbw : h.WFSlice b.Data) (how : h.WFSlice o.Data)
    (hd : dst ≤ b.Data.len) (hs : src + count ≤ u64 o.Data.len) :
    (CopySegment bs dst other src count h).1 = .ok () ∧
    (CopySegment bs dst other src count h).2.objs = h.objs ∧
    (CopySegment bs dst other src count h).2.content bs =
      (h.content bs).take dst ++
        ((h.content other).drop src).take (min (b.Data.len - dst) count) ++
        (h.content bs).drop (dst + min (b.Data.len - dst) count) := by
  have hol := u64_le o.Data.len
  have hu : u64 (src + count) = src + count :=
    u64_of_lt _ (lt_of_le_of_lt hs (u64_lt _))
  obtain ⟨hba, hbc, hblc⟩ := hbw
  obtain ⟨hoa, hoc, holc⟩ := how
  rw [CopySegment_eq h bs other b o dst src count hb ho hbv hov hne hd
    (by omega) (by omega), hu]
  have hcnt : src + count - src = count := by omega
  have hdata : (h.read ⟨o.Data.arr, o.Data.off + src, src + count - src, o.Data.cap - src⟩).take
      (min (b.Data.len - dst) (src + count - src)) =
        ((h.content other).drop src).take (min (b.Data.len - dst) count) := by
    rw [hcnt, content_eq h other o ho]
    simp only [Heap.read, List.drop_take, List.take_take, List.drop_drop]
    congr 1
    omega
  rw [hdata]
  have hlen : (((h.content other).drop src).take (min (b.Data.len - dst) count)).length =
      min (b.Data.len - dst) count := by
    rw [content_eq h other o ho]
    simp [Heap.read]
    omega
  generalize ((h.content other).drop src).take (min (b.Data.len - dst) count) = D at hlen ⊢
  refine ⟨rfl, rfl, ?_⟩
  rw [content_eq _ bs b (by simpa [Heap.writeAt] using hb), content_eq h bs b hb]
  simp only [Heap.read, Heap.writeAt]
  rw [array_set_self h _ _ hba,
    read_overwrite_inside _ _ _ _ _ (by rw [hlen]; omega) (by omega)]
  simp only [overwrite, hlen]

/-- C4, counterexample. With `d = [0,0,0,0]` and `c = [10,20,30]`, the call
`d.CopySegment(3, c, 0, 2)` has `dst + count = 5 > 4 = Len(d)`, yet it does not
fail: it succeeds and copies the one byte that fits, giving `d = [0,0,0,10]`. -/
theorem CopySegment_dst_counterexample :
    heapCD.objs[1]? = some ⟨⟨1, 0, 4, 4⟩, false⟩ ∧
    heapCD.objs[0]? = some ⟨⟨0, 0, 3, 3⟩, false⟩ ∧
    (Len 1 heapCD).1 = .ok 4 ∧ (Len 0 heapCD).1 = .ok 3 ∧ 3 + 2 > 4 ∧ 0 + 2 ≤ 3 ∧
    (CopySegment 1 3 0 0 2 heapCD).1 = .ok () ∧
    (CopySegment 1 3 0 0 2 heapCD).1 ≠ .fail .OutOfBounds ∧
    heapCD.content 1 = [0, 0, 0, 0] ∧
    (CopySegment 1 3 0 0 2 heapCD).2.content 1 = [0, 0, 0, 10] := by
  decide

/-- C4, amended. For valid, distinct buffers `bs` (content `S`) and `other`
(content `O`): when `dst > Len(bs)` the call fails with an out-of-bounds panic and
the heap is as before (no byte written); when `dst <= Len(bs) < dst + count` and
`src + count <= Len(other)` the call does not fail: it succeeds and copies only the
first `Len(bs) - dst` bytes of the source range, so that the content of `bs` becomes
`S[0:dst]` followed by `O[src : src + Len(bs) - dst]`, with no object changed. -/
theorem CopySegment_dst_bound (h : Heap) (bs other : Nat) (b o : Bytes) (dst src count : Nat)
    (hb : h.objs[bs]? = some b) (ho : h.objs[other]? = some o)
    (hbv : b.Invalid = false) (hov : o.Invalid = false) (hne : other ≠ bs)
    (hbw : h.WFSlice b.Data) (how : h.WFSlice o.Data) :
    (b.Data.len < dst → CopySegment bs dst other src count h = (.fail .OutOfBounds, h)) ∧
    (dst ≤ b.Data.len → b.Data.len < dst + count → src + count ≤ u64 o.Data.len →
      (CopySegment bs dst other src count h).1 = .ok () ∧
      (CopySegment bs dst other src count h).2.objs = h.objs ∧
      (CopySegment bs dst other src count h).2.content bs =
        (h.content bs).take dst ++ ((h.content other).drop src).take (b.Data.len - dst)) := by
  constructor
  · intro hlt
    exact (CopySegment_fail_iff h bs other b o dst src count hb ho hbv hov hne).1.2 (Or.inl hlt)
  · intro hd hover hs
    have hc := CopySegment_clamped h bs other b o dst src count hb ho hbv hov hne hbw how hd hs
    have hmin : min (b.Data.len - dst) count = b.Data.len - dst := by omega
    rw [hmin] at hc
    refine ⟨hc.1, hc.2.1, ?_⟩
    rw [hc.2.2]
    have hS : (h.content bs).length ≤ dst + (b.Data.len - dst) := by
      rw [content_eq h bs b hb]
      simp [Heap.read]
      omega
    rw [List.drop_eq_nil_of_le hS, List.append_nil]

/-- Witness for the amended C4 on `d = [0,0,0,0]`, `c = [10,20,30]`:
`d.CopySegment(5, c, 0, 2)` fails with an out-of-bounds panic, and
`d.CopySegment(3, c, 0, 2)` succeeds with `d = [0,0,0,10]`. -/
theorem CopySegment_dst_bound_witness :
    (heapCD.objs[1]? = some ⟨⟨1, 0, 4, 4⟩, false⟩ ∧ heapCD.objs[0]? = some ⟨⟨0, 0, 3, 3⟩, false⟩ ∧
      heapCD.WFSlice ⟨1, 0, 4, 4⟩ ∧ heapCD.WFSlice ⟨0, 0, 3, 3⟩ ∧
      4 < 5 ∧ 3 ≤ 4 ∧ 4 < 3 + 2 ∧ 0 + 2 ≤ u64 3) ∧
    CopySegment 1 5 0 0 2 heapCD = (.fail .OutOfBounds, heapCD) ∧
    ((CopySegment 1 3 0 0 2 heapCD).1 = .ok () ∧
      (CopySegment 1 3 0 0 2 heapCD).2.objs = heapCD.objs ∧
      (CopySegment 1 3 0 0 2 heapCD).2.content 1 =
        (heapCD.content 1).take 3 ++ ((heapCD.content 0).drop 0).take (4 - 3)) :=
  ⟨by decide,
   (CopySegment_dst_bound heapCD 1 0 ⟨⟨1, 0, 4, 4⟩, false⟩ ⟨⟨0, 0, 3, 3⟩, false⟩ 5 0 2
     (by decide) (by decide) (by decide) (by decide) (by decide) (by decide)
     (by decide)).1 (by decide),
   (CopySegment_dst_bound heapCD 1 0 ⟨⟨1, 0, 4, 4⟩, false⟩ ⟨⟨0, 0, 3, 3⟩, false⟩ 3 0 2
     (by decide) (by decide) (by decide) (by decide) (by decide) (by decide)
     (by decide)).2 (by decide) (by decide) (by decide)⟩

/-- C5, counterexample. After `o := Data([1,2,3])`, `o.Subslice(0, 1)` and
`s := Data([0,0,0])`, the call `s.CopySegment(0, o, 0, 3)` has
`src + count = 3 > 1 = Len(o)`, yet it succeeds and copies the bytes `2, 3` of the
storage of `o` that lie beyond `Len(o)`: `s` becomes `[1,2,3]`. -/
theorem CopySegment_src_counterexample :
    heapNarrowed.objs[0]? = some ⟨⟨0, 0, 1, 3⟩, false⟩ ∧
    heapNarrowed.objs[1]? = some ⟨⟨1, 0, 3, 3⟩, false⟩ ∧
    (Len 0 heapNarrowed).1 = .ok 1 ∧ heapNarrowed.content 0 = [1] ∧ 0 + 3 > 1 ∧
    heapNarrowed.content 1 = [0, 0, 0] ∧
    (CopySegment 1 0 0 0 3 heapNarrowed).1 = .ok () ∧
    (CopySegment 1 0 0 0 3 heapNarrowed).1 ≠ .fail .OutOfBounds ∧
    (CopySegment 1 0 0 0 3 heapNarrowed).2.content 1 = [1, 2, 3] := by
  decide

/-- C5, amended. For valid, distinct buffers `bs` and `other` in any state and
all `dst`, `src` and `uint64` `count` with `src + count > cap(other.Data)`, the
storage capacity of `other` (equal to `Len(other)` when `other` has no spare
capacity), the call fails with an out-of-bounds panic and the heap is as before. -/
theorem CopySegment_src_bound (h : Heap) (bs other : Nat) (b o : Bytes) (dst src count : Nat)
    (hb : h.objs[bs]? = some b) (ho : h.objs[other]? = some o)
    (hbv : b.Invalid = false) (hov : o.Invalid = false) (hne : other ≠ bs)
    (hcount : count < 2 ^ 64) (hover : o.Data.cap < src + count) :
    CopySegment bs dst other src count h = (.fail .OutOfBounds, h) := by
  apply (CopySegment_fail_iff h bs other b o dst src count hb ho hbv hov hne).1.2
  right
  unfold u64
  omega

/-- Witness for the amended C5: with `d = [0,0,0,0]` and `c = [10,20,30]` (no spare
capacity), `d.CopySegment(0, c, 1, 3)` fails with an out-of-bounds panic. -/
theorem CopySegment_src_bound_witness :
    (heapCD.objs[1]? = some ⟨⟨1, 0, 4, 4⟩, false⟩ ∧ heapCD.objs[0]? = some ⟨⟨0, 0, 3, 3⟩, false⟩ ∧
      3 < 2 ^ 64 ∧ 3 < 1 + 3) ∧
    CopySegment 1 0 0 1 3 heapCD = (.fail .OutOfBounds, heapCD) :=
  ⟨by decide,
   CopySegment_src_bound heapCD 1 0 ⟨⟨1, 0, 4, 4⟩, false⟩ ⟨⟨0, 0, 3, 3⟩, false⟩ 0 1 3
     (by decide) (by decide) (by decide) (by decide) (by decide) (by decide) (by decide)⟩

/-! ## Subslice -/

/-- C6, counterexample. After `b := Data([1,2,3])` and `b.Subslice(0, 1)` the
length of `b` is `1`; the later call `b.Subslice(0, 3)` has `end = 3 > 1 = Len(b)`,
yet it succeeds and brings the bytes `2, 3` back: the content is `[1,2,3]` again. -/
theorem Subslice_counterexample :
    (Subslice 0 0 1 heap123).1 = .ok () ∧
    (Subslice 0 0 1 heap123).2.objs[0]? = some ⟨⟨0, 0, 1, 3⟩, false⟩ ∧
    (Len 0 (Subslice 0 0 1 heap123).2).1 = .ok 1 ∧
    (Subslice 0 0 1 heap123).2.content 0 = [1] ∧ 3 > 1 ∧
    (Subslice 0 0 3 (Subslice 0 0 1 heap123).2).1 = .ok () ∧
    (Subslice 0 0 3 (Subslice 0 0 1 heap123).2).1 ≠ .fail .OutOfBounds ∧
    (Subslice 0 0 3 (Subslice 0 0 1 heap123).2).2.content 0 = [1, 2, 3] := by
  decide

/-- C6, amended. For a valid buffer `bs` in any state and all `start`, `end`:
`Subslice` fails with an out-of-bounds panic, leaving the heap as it was, exactly
when `start > end` or `end > cap(bs.Data)`, the storage capacity of `bs`; otherwise
it succeeds.  The bound is the capacity, which is `Len(bs)` only when `bs` has no
spare capacity. -/
theorem Subslice_fail_iff (h : Heap) (bs : Nat) (b : Bytes) (start stop : Nat)
    (hb : h.objs[bs]? = some b) (hv : b.Invalid = false) :
    (Subslice bs start stop h = (.fail .OutOfBounds, h) ↔ (stop < start ∨ b.Data.cap < stop)) ∧
    ((Subslice bs start stop h).1 = .ok () ↔ (start ≤ stop ∧ stop ≤ b.Data.cap)) := by
  by_cases hc : start ≤ stop ∧ stop ≤ b.Data.cap
  · have hn : ¬ (stop < start ∨ b.Data.cap < stop) := by omega
    simp [Subslice, hb, hv, Slice.slice, hc, hn]
  · have hn : stop < start ∨ b.Data.cap < stop := by omega
    have h2 : b.Data.slice start stop = none := by
      simp only [Slice.slice, hc, if_false]
    simp [Subslice, hb, hv, h2, hc, hn]

/-- Witness for the amended C6: `Data([1,2,3]).Subslice(1, 5)` fails with an
out-of-bounds panic (the capacity is `3`). -/
theorem Subslice_fail_iff_witness :
    (heap123.objs[0]? = some ⟨⟨0, 0, 3, 3⟩, false⟩ ∧ (3 : Nat) < 5) ∧
    Subslice 0 1 5 heap123 = (.fail .OutOfBounds, heap123) :=
  ⟨by decide,
   (Subslice_fail_iff heap123 0 ⟨⟨0, 0, 3, 3⟩, false⟩ 1 5 (by decide) (by decide)).1.2
     (Or.inr (by decide))⟩

/-- C7. Narrow result: for a valid buffer `bs` with content `C` and
`start <= end <= Len(bs)`, `Subslice(start, end)` succeeds; afterwards the content
of `bs` is `C[start:end]` and `Len(bs) == end - start`. -/
theorem Subslice_content (h : Heap) (bs : Nat) (b : Bytes) (start stop : Nat)
    (hb : h.objs[bs]? = some b) (hv : b.Invalid = false) (hwf : h.WFSlice b.Data)
    (hse : start ≤ stop) (hel : stop ≤ u64 b.Data.len) :
    (Subslice bs start stop h).1 = .ok () ∧
    (Subslice bs start stop h).2.content bs = ((h.content bs).drop start).take (stop - start) ∧
    (Len bs (Subslice bs start stop h).2).1 = .ok (stop - start) := by
  have hlt := lt_of_getElem?_eq_some hb
  have hbl := u64_le b.Data.len
  have hlt64 := u64_lt b.Data.len
  obtain ⟨-, -, hlc⟩ := hwf
  have h2 : b.Data.slice start stop =
      some ⟨b.Data.arr, b.Data.off + start, stop - start, b.Data.cap - start⟩ := by
    simp [Slice.slice, hse]; omega
  have hobj : (h.setData bs b
      ⟨b.Data.arr, b.Data.off + start, stop - start, b.Data.cap - start⟩).objs[bs]? =
      some ⟨⟨b.Data.arr, b.Data.off + start, stop - start, b.Data.cap - start⟩, b.Invalid⟩ := by
    simp [Heap.setData, hlt]
  have heq : Subslice bs start stop h = (.ok (), h.setData bs b
      ⟨b.Data.arr, b.Data.off + start, stop - start, b.Data.cap - start⟩) := by
    simp [Subslice, hb, hv, h2]
  rw [heq]
  refine ⟨rfl, ?_, ?_⟩
  · rw [content_eq _ bs _ hobj, content_eq h bs b hb]
    simp only [Heap.read, Heap.setData, Heap.array, List.drop_take, List.take_take,
      List.drop_drop]
    congr 1
    omega
  · simp only [Len, hobj]
    rw [u64_of_lt (stop - start) (by omega)]

/-- Witness for C7: `Data([1,2,3,4,5]).Subslice(1, 3)` leaves `[2,3]`, of length `2`. -/
theorem Subslice_content_witness :
    (heap12345.objs[0]? = some ⟨⟨0, 0, 5, 5⟩, false⟩ ∧ heap12345.WFSlice ⟨0, 0, 5, 5⟩ ∧
      1 ≤ 3 ∧ 3 ≤ u64 5) ∧
    (Subslice 0 1 3 heap12345).2.content 0 = [2, 3] ∧
    ((Subslice 0 1 3 heap12345).1 = .ok () ∧
      (Subslice 0 1 3 heap12345).2.content 0 = ((heap12345.content 0).drop 1).take (3 - 1) ∧
      (Len 0 (Subslice 0 1 3 heap12345).2).1 = .ok (3 - 1)) :=
  ⟨by decide, by decide,
   Subslice_content heap12345 0 ⟨⟨0, 0, 5, 5⟩, false⟩ 1 3 (by decide) (by decide) (by decide)
     (by decide) (by decide)⟩

/-! ## Explicit panics: self-aliasing, invalidated handles, and no mutation on failure -/

/-- C8. Self-aliasing rejection: for a valid buffer `bs` (of any content, empty
or not), `bs.AppendBytes(bs)` fails with the self-aliasing panic, and for all
`dst`, `src`, `count` (in or out of bounds) `bs.CopySegment(dst, bs, src, count)`
fails with the self-aliasing panic: never out-of-bounds, never success.  The heap
is as before. -/
theorem self_aliasing_rejected (grow : Nat → Nat → Nat) (h : Heap) (bs : Nat) (b : Bytes)
    (hb : h.objs[bs]? = some b) (hv : b.Invalid = false) :
    AppendBytes grow bs bs h = (.fail .SelfAliasing, h) ∧
    ∀ dst src count : Nat, CopySegment bs dst bs src count h = (.fail .SelfAliasing, h) := by
  constructor
  · simp [AppendBytes, hb, hv]
  · intro dst src count
    simp [CopySegment, hb, hv]

/-- Witness for C8: with `b = Data([1,2,3])`, `b.AppendBytes(b)` fails, and so does
`b.CopySegment(7, b, 9, 100)`. -/
theorem self_aliasing_rejected_witness :
    heap123.objs[0]? = some ⟨⟨0, 0, 3, 3⟩, false⟩ ∧
    AppendBytes growDouble 0 0 heap123 = (.fail .SelfAliasing, heap123) ∧
    CopySegment 0 7 0 9 100 heap123 = (.fail .SelfAliasing, heap123) :=
  ⟨by decide,
   (self_aliasing_rejected growDouble heap123 0 ⟨⟨0, 0, 3, 3⟩, false⟩ (by decide) (by decide)).1,
   (self_aliasing_rejected growDouble heap123 0 ⟨⟨0, 0, 3, 3⟩, false⟩ (by decide) (by decide)).2
     7 9 100⟩

/-- C9. Invalidated-handle rejection: for a buffer `bs` whose marker is cleared
(`Invalid = true`) and all arguments, each of `Get`, `Set`, `Append`, `Subslice`
and `Split` on it fails with the invalidated panic; `AppendBytes` and `CopySegment`
fail with the invalidated panic when `bs` is the receiver (whatever `other` is, the
same instance included) and when `bs` is the `other` operand of any buffer; the
heap is as before in every case. -/
theorem invalidated_rejected (grow : Nat → Nat → Nat) (h : Heap) (bs : Nat) (b : Bytes)
    (hb : h.objs[bs]? = some b) (hinv : b.Invalid = true) :
    (∀ i, Get bs i h = (.fail .Invalidated, h)) ∧
    (∀ i v, Set bs i v h = (.fail .Invalidated, h)) ∧
    (∀ v, Append grow bs v h = (.fail .Invalidated, h)) ∧
    (∀ start stop, Subslice bs start stop h = (.fail .Invalidated, h)) ∧
    (∀ off, Split bs off h = (.fail .Invalidated, h)) ∧
    (∀ other, AppendBytes grow bs other h = (.fail .Invalidated, h)) ∧
    (∀ dst other src count, CopySegment bs dst other src count h = (.fail .Invalidated, h)) ∧
    (∀ self sb, h.objs[self]? = some sb →
      AppendBytes grow self bs h = (.fail .Invalidated, h)) ∧
    (∀ self sb dst src count, h.objs[self]? = some sb →
      CopySegment self dst bs src count h = (.fail .Invalidated, h)) := by
  refine ⟨?_, ?_, ?_, ?_, ?_, ?_, ?_, ?_, ?_⟩
  · intro i; simp [Get, hb, hinv]
  · intro i v; simp [Set, hb, hinv]
  · intro v; simp [Append, hb, hinv]
  · intro start stop; simp [Subslice, hb, hinv]
  · intro off; simp [Split, hb, hinv]
  · intro other; simp [AppendBytes, hb, hinv]
  · intro dst other src count; simp [CopySegment, hb, hinv]
  · intro self sb hs
    cases hsv : sb.Invalid <;> simp [AppendBytes, hs, hsv, hb, hinv]
  · intro self sb dst src count hs
    cases hsv : sb.Invalid <;> simp [CopySegment, hs, hsv, hb, hinv]

/-- Witness for C9 on `heapInvalid`: with out-of-bounds arguments, and with the
same buffer as `other`, the panic is still the invalidated one. -/
theorem invalidated_rejected_witness :
    (heapInvalid.objs[1]? = some ⟨⟨1, 0, 2, 2⟩, true⟩ ∧
      heapInvalid.objs[0]? = some ⟨⟨0, 0, 3, 3⟩, false⟩) ∧
    Get 1 99 heapInvalid = (.fail .Invalidated, heapInvalid) ∧
    Split 1 99 heapInvalid = (.fail .Invalidated, heapInvalid) ∧
    CopySegment 1 50 1 60 70 heapInvalid = (.fail .Invalidated, heapInvalid) ∧
    AppendBytes growDouble 0 1 heapInvalid = (.fail .Invalidated, heapInvalid) :=
  ⟨by decide,
   (invalidated_rejected growDouble heapInvalid 1 ⟨⟨1, 0, 2, 2⟩, true⟩ (by decide)
     (by decide)).1 99,
   (invalidated_rejected growDouble heapInvalid 1 ⟨⟨1, 0, 2, 2⟩, true⟩ (by decide)
     (by decide)).2.2.2.2.1 99,
   (invalidated_rejected growDouble heapInvalid 1 ⟨⟨1, 0, 2, 2⟩, true⟩ (by decide)
     (by decide)).2.2.2.2.2.2.1 50 1 60 70,
   (invalidated_rejected growDouble heapInvalid 1 ⟨⟨1, 0, 2, 2⟩, true⟩ (by decide)
     (by decide)).2.2.2.2.2.2.2.1 0 ⟨⟨0, 0, 3, 3⟩, false⟩ (by decide)⟩

/-- C10. Fail before mutating: for each of `Get`, `Set`, `Append`, `AppendBytes`,
`Subslice`, `CopySegment` and `Split`, on every heap and every input on which the
call panics (whatever the panic), the heap after the call is the heap before it:
content, length and marker of every buffer are unchanged. -/
theorem fail_before_mutating (grow : Nat → Nat → Nat) (h : Heap) (e : Err) :
    (∀ bs i, (Get bs i h).1 = .fail e → (Get bs i h).2 = h) ∧
    (∀ bs i v, (Set bs i v h).1 = .fail e → (Set bs i v h).2 = h) ∧
    (∀ bs v, (Append grow bs v h).1 = .fail e → (Append grow bs v h).2 = h) ∧
    (∀ bs other, (AppendBytes grow bs other h).1 = .fail e →
      (AppendBytes grow bs other h).2 = h) ∧
    (∀ bs start stop, (Subslice bs start stop h).1 = .fail e →
      (Subslice bs start stop h).2 = h) ∧
    (∀ bs dst other src count, (CopySegment bs dst other src count h).1 = .fail e →
      (CopySegment bs dst other src count h).2 = h) ∧
    (∀ bs off, (Split bs off h).1 = .fail e → (Split bs off h).2 = h) := by
  refine ⟨?_, ?_, ?_, ?_, ?_, ?_, ?_⟩
  · intro bs i
    unfold Get
    repeat' split
    all_goals (intro _; rfl)
  · intro bs i v
    unfold Set
    repeat' split
    all_goals first | (intro _; rfl) | (intro hc; cases hc)
  · intro bs v
    unfold Append
    repeat' split
    all_goals first | (intro _; rfl) | (intro hc; cases hc)
  · intro bs other
    unfold AppendBytes
    repeat' split
    all_goals first | (intro _; rfl) | (intro hc; cases hc)
  · intro bs start stop
    unfold Subslice
    repeat' split
    all_goals first | (intro _; rfl) | (intro hc; cases hc)
  · intro bs dst other src count
    unfold CopySegment
    repeat' split
    all_goals first | (intro _; rfl) | (intro hc; cases hc)
  · intro bs off
    unfold Split
    repeat' split
    all_goals first | (intro _; rfl) | (intro hc; cases hc)

/-- Witness for C10: with `b = Data([1,2,3])`, `b.AppendBytes(b)` fails and `b` is
still `[1,2,3]`. -/
theorem fail_before_mutating_witness :
    (AppendBytes growDouble 0 0 heap123).1 = .fail .SelfAliasing ∧
    (AppendBytes growDouble 0 0 heap123).2 = heap123 ∧
    (AppendBytes growDouble 0 0 heap123).2.content 0 = [1, 2, 3] :=
  ⟨by decide,
   (fail_before_mutating growDouble heap123 .SelfAliasing).2.2.2.1 0 0 (by decide),
   by decide⟩

/-! ## Split: bounds -/

/-- The contents after a successful Split, with the returned pointer explicit. -/
theorem Split_ok_contents (h : Heap) (bs : Nat) (b : Bytes) (off : Nat)
    (hb : h.objs[bs]? = some b) (hv : b.Invalid = false)
    (hlc : b.Data.len ≤ b.Data.cap) (hoff : off ≤ b.Data.len) :
    (Split bs off h).1 = .ok h.objs.length ∧
    (Split bs off h).2.content bs = (h.content bs).take off ∧
    (Split bs off h).2.content h.objs.length = (h.content bs).drop off := by
  have hlt := lt_of_getElem?_eq_some hb
  rw [Split_eq h bs b off hb hv hlc hoff]
  have hC : h.content bs = ((h.array b.Data.arr).drop b.Data.off).take b.Data.len := by
    rw [content_eq h bs b hb]; rfl
  refine ⟨rfl, ?_, ?_⟩
  · rw [content_eq _ bs ⟨⟨b.Data.arr, b.Data.off, off, off⟩, false⟩
      (by simp [List.getElem?_append_left, hlt]), hC]
    simp [Heap.read, Heap.array, List.take_take, hoff]
  · rw [content_eq _ h.objs.length
      ⟨⟨b.Data.arr, b.Data.off + off, b.Data.len - off, b.Data.cap - off⟩, false⟩
      (by simp [List.getElem?_append_right]), hC]
    simp [Heap.read, Heap.array, List.drop_take, Nat.add_comm]

theorem content_length (h : Heap) (p : Nat) (b : Bytes) (hb : h.objs[p]? = some b)
    (hwf : h.WFSlice b.Data) : (h.content p).length = b.Data.len := by
  obtain ⟨-, hc, hlc⟩ := hwf
  rw [content_eq h p b hb]
  simp [Heap.read]
  omega

/-- C11. Split bounds: for a valid buffer `bs` in any well-formed state (spare
capacity included) and every `off`, `Split(off)` fails with an out-of-bounds panic
(heap unchanged) exactly when `off > Len(bs)`.  It succeeds for `off = 0`, leaving
`bs` empty and `r` with the whole content, and for `off = Len(bs)`, leaving `bs` with
the whole content and `r` empty. -/
theorem Split_fail_iff (h : Heap) (bs : Nat) (b : Bytes) (off : Nat)
    (hb : h.objs[bs]? = some b) (hv : b.Invalid = false) (hwf : h.WFSlice b.Data) :
    (Split bs off h = (.fail .OutOfBounds, h) ↔ b.Data.len < off) ∧
    ((∃ r, (Split bs off h).1 = .ok r) ↔ off ≤ b.Data.len) ∧
    ((Split bs 0 h).1 = .ok h.objs.length ∧ (Split bs 0 h).2.content bs = [] ∧
      (Split bs 0 h).2.content h.objs.length = h.content bs) ∧
    ((Split bs b.Data.len h).1 = .ok h.objs.length ∧
      (Split bs b.Data.len h).2.content bs = h.content bs ∧
      (Split bs b.Data.len h).2.content h.objs.length = []) := by
  have hlen := content_length h bs b hb hwf
  have hlc := hwf.2.2
  have hfail : b.Data.len < off → Split bs off h = (.fail .OutOfBounds, h) := by
    intro hlt
    have h2 : b.Data.sliceFrom off = none := by
      simp only [Slice.sliceFrom, Nat.not_le.mpr hlt, if_false]
    by_cases hc : off ≤ b.Data.cap
    · have h3 : b.Data.slice3 0 off off = some ⟨b.Data.arr, b.Data.off, off, off⟩ := by
        simp [Slice.slice3, hc]
      simp [Split, hb, hv, h3, h2]
    · have h3 : b.Data.slice3 0 off off = none := by
        simp [Slice.slice3, hc]
      simp [Split, hb, hv, h3]
  refine ⟨⟨?_, hfail⟩, ⟨?_, ?_⟩, ?_, ?_⟩
  · intro hf
    by_contra hn
    have hok := (Split_ok_contents h bs b off hb hv hlc (by omega)).1
    rw [hf] at hok
    exact absurd hok (by simp)
  · rintro ⟨r, hr⟩
    by_contra hn
    rw [hfail (by omega)] at hr
    exact absurd hr (by simp)
  · intro hle
    exact ⟨_, (Split_ok_contents h bs b off hb hv hlc hle).1⟩
  · have hs := Split_ok_contents h bs b 0 hb hv hlc (Nat.zero_le _)
    exact ⟨hs.1, by rw [hs.2.1, List.take_zero], by rw [hs.2.2, List.drop_zero]⟩
  · have hs := Split_ok_contents h bs b b.Data.len hb hv hlc (le_refl _)
    refine ⟨hs.1, ?_, ?_⟩
    · rw [hs.2.1, ← hlen, List.take_length]
    · rw [hs.2.2, ← hlen, List.drop_length]

/-- Witness for C11 on `b = [1,2,3]` narrowed to length `1` with capacity `3`:
`Split(2)` fails although `2` is within the capacity, `Split(0)` and `Split(1)`
succeed. -/
theorem Split_fail_iff_witness :
    (heapNarrowed.objs[0]? = some ⟨⟨0, 0, 1, 3⟩, false⟩ ∧ heapNarrowed.WFSlice ⟨0, 0, 1, 3⟩) ∧
    Split 0 2 heapNarrowed = (.fail .OutOfBounds, heapNarrowed) ∧
    ((Split 0 0 heapNarrowed).1 = .ok 2 ∧ (Split 0 0 heapNarrowed).2.content 0 = [] ∧
      (Split 0 0 heapNarrowed).2.content 2 = heapNarrowed.content 0) ∧
    ((Split 0 1 heapNarrowed).1 = .ok 2 ∧
      (Split 0 1 heapNarrowed).2.content 0 = heapNarrowed.content 0 ∧
      (Split 0 1 heapNarrowed).2.content 2 = []) :=
  ⟨by decide,
   (Split_fail_iff heapNarrowed 0 ⟨⟨0, 0, 1, 3⟩, false⟩ 2 (by decide) (by decide)
     (by decide)).1.2 (by decide),
   (Split_fail_iff heapNarrowed 0 ⟨⟨0, 0, 1, 3⟩, false⟩ 2 (by decide) (by decide)
     (by decide)).2.2.1,
   (Split_fail_iff heapNarrowed 0 ⟨⟨0, 0, 1, 3⟩, false⟩ 2 (by decide) (by decide)
     (by decide)).2.2.2⟩

/-! ## Get and Set -/

/-- Reading a window that contains the stored position. -/
theorem read_store_inside (A : List Byte) (o i L : Nat) (v : Byte)
    (hi : i < L) (hL : o + L ≤ A.length) :
    ((A.set (o + i) v).drop o).take L = ((A.drop o).take L).set i v := by
  have hlen : ((A.drop o).take L).length = L := by simp; omega
  apply List.ext_getElem?
  intro k
  rw [window_getElem?, List.getElem?_set, List.getElem?_set, window_getElem?, hlen]
  by_cases hk : k < L
  · by_cases hik : i = k
    · subst hik
      have h1 : o + i < A.length := by omega
      simp [hk, h1]
    · have h1 : ¬ o + i = o + k := by omega
      simp [hk, hik, h1]
  · have hik : ¬ i = k := by omega
    simp [hk, hik]

/-- Reading a window that does not contain the stored position. -/
theorem read_store_outside (A : List Byte) (o j L : Nat) (v : Byte)
    (hj : j < o ∨ o + L ≤ j) :
    ((A.set j v).drop o).take L = (A.drop o).take L := by
  apply List.ext_getElem?
  intro k
  rw [window_getElem?, List.getElem?_set, window_getElem?]
  by_cases hk : k < L
  · have h1 : ¬ j = o + k := by omega
    simp [hk, h1]
  · simp [hk]

theorem Get_eq (h : Heap) (bs : Nat) (b : Bytes) (i : Nat)
    (hb : h.objs[bs]? = some b) (hv : b.Invalid = false) (hi : i < b.Data.len) :
    Get bs i h = (.ok ((h.array b.Data.arr).getD (b.Data.off + i) 0), h) := by
  simp [Get, hb, hv, hi]

theorem Set_eq (h : Heap) (bs : Nat) (b : Bytes) (i : Nat) (v : Byte)
    (hb : h.objs[bs]? = some b) (hv : b.Invalid = false) (hi : i < b.Data.len) :
    Set bs i v h = (.ok (), h.store b.Data.arr (b.Data.off + i) v) := by
  simp [Set, hb, hv, hi]

/-- The byte that `Get` returns at an index below the length is the byte of the
content at that index. -/
theorem content_getElem? (h : Heap) (bs : Nat) (b : Bytes) (i : Nat)
    (hb : h.objs[bs]? = some b) (hwf : h.WFSlice b.Data) (hi : i < b.Data.len) :
    (h.content bs)[i]? = some ((h.array b.Data.arr).getD (b.Data.off + i) 0) := by
  obtain ⟨-, hc, hlc⟩ := hwf
  have h1 : b.Data.off + i < (h.array b.Data.arr).length := by omega
  rw [content_eq h bs b hb]
  simp only [Heap.read]
  rw [window_getElem?, if_pos hi, List.getD_eq_getElem?_getD, List.getElem?_eq_getElem h1]
  rfl

/-- C13. Index bounds of `Get` and `Set`: for a valid buffer `bs` with content `C`
in any well-formed state (spare capacity included) and every index `i`, `Get(i)`
returns `C[i]` when `i < Len(bs)` and fails with an out-of-bounds panic when
`i >= Len(bs)`, and `Set(i, v)` fails with an out-of-bounds panic when
`i >= Len(bs)`; in particular `i = Len(bs)` is rejected by both.  The heap is
unchanged in all these cases. -/
theorem Get_Set_bounds (h : Heap) (bs : Nat) (b : Bytes) (i : Nat)
    (hb : h.objs[bs]? = some b) (hv : b.Invalid = false) (hwf : h.WFSlice b.Data) :
    (i < b.Data.len → ∃ v, Get bs i h = (.ok v, h) ∧ (h.content bs)[i]? = some v) ∧
    (b.Data.len ≤ i → Get bs i h = (.fail .OutOfBounds, h)) ∧
    (b.Data.len ≤ i → ∀ v, Set bs i v h = (.fail .OutOfBounds, h)) ∧
    Get bs b.Data.len h = (.fail .OutOfBounds, h) ∧
    (∀ v, Set bs b.Data.len v h = (.fail .OutOfBounds, h)) := by
  have hget : ∀ j, b.Data.len ≤ j → Get bs j h = (.fail .OutOfBounds, h) := by
    intro j hj
    simp [Get, hb, hv, Nat.not_lt.mpr hj]
  have hset : ∀ j, b.Data.len ≤ j → ∀ v, Set bs j v h = (.fail .OutOfBounds, h) := by
    intro j hj v
    simp [Set, hb, hv, Nat.not_lt.mpr hj]
  refine ⟨?_, hget i, hset i, hget _ (le_refl _), hset _ (le_refl _)⟩
  intro hi
  exact ⟨_, Get_eq h bs b i hb hv hi, content_getElem? h bs b i hb hwf hi⟩

/-- Witness for C13 on `b = [1,2,3]` narrowed to length `1` with capacity `3`:
`Get(0)` returns `1`; `Get(1)` and `Set(1, 7)` fail although index `1` is within
the capacity. -/
theorem Get_Set_bounds_witness :
    (heapNarrowed.objs[0]? = some ⟨⟨0, 0, 1, 3⟩, false⟩ ∧ heapNarrowed.WFSlice ⟨0, 0, 1, 3⟩) ∧
    Get 0 0 heapNarrowed = (.ok 1, heapNarrowed) ∧
    (∃ v, Get 0 0 heapNarrowed = (.ok v, heapNarrowed) ∧ (heapNarrowed.content 0)[0]? = some v) ∧
    Get 0 1 heapNarrowed = (.fail .OutOfBounds, heapNarrowed) ∧
    Set 0 1 7 heapNarrowed = (.fail .OutOfBounds, heapNarrowed) :=
  ⟨by decide, by decide,
   (Get_Set_bounds heapNarrowed 0 ⟨⟨0, 0, 1, 3⟩, false⟩ 0 (by decide) (by decide)
     (by decide)).1 (by decide),
   (Get_Set_bounds heapNarrowed 0 ⟨⟨0, 0, 1, 3⟩, false⟩ 1 (by decide) (by decide)
     (by decide)).2.1 (by decide),
   (Get_Set_bounds heapNarrowed 0 ⟨⟨0, 0, 1, 3⟩, false⟩ 1 (by decide) (by decide)
     (by decide)).2.2.1 (by decide) 7⟩

theorem store_array_self (h : Heap) (a i : Nat) (v : Byte) (ha : a < h.arrays.length) :
    (h.store a i v).array a = (h.array a).set i v := by
  simp [Heap.store, Heap.array, ha]

theorem store_array_ne (h : Heap) (a c i : Nat) (v : Byte) (hne : a ≠ c) :
    (h.store a i v).array c = h.array c := by
  simp [Heap.store, Heap.array, List.getElem?_set_ne hne]

/-- C14. `Set` replaces exactly one byte: for a valid buffer `bs` with content `C`,
an index `i < Len(bs)` and a byte `v`, `Set(i, v)` succeeds; afterwards `Get(i)` is
`v`, `Get(j)` is `C[j]` for every other `j < Len(bs)`, the content is `C` with
position `i` replaced by `v`, and no object has changed, so `Len(bs)` is as
before. -/
theorem Set_exact (h : Heap) (bs : Nat) (b : Bytes) (i : Nat) (v : Byte)
    (hb : h.objs[bs]? = some b) (hv : b.Invalid = false) (hwf : h.WFSlice b.Data)
    (hi : i < b.Data.len) :
    (Set bs i v h).1 = .ok () ∧
    (Set bs i v h).2.objs = h.objs ∧
    (Set bs i v h).2.content bs = (h.content bs).set i v ∧
    Get bs i (Set bs i v h).2 = (.ok v, (Set bs i v h).2) ∧
    (∀ j, j < b.Data.len → j ≠ i →
      ∃ w, Get bs j (Set bs i v h).2 = (.ok w, (Set bs i v h).2) ∧
        (h.content bs)[j]? = some w) ∧
    (Len bs (Set bs i v h).2).1 = (Len bs h).1 := by
  obtain ⟨ha, hc, hlc⟩ := hwf
  rw [Set_eq h bs b i v hb hv hi]
  have hb2 : (h.store b.Data.arr (b.Data.off + i) v).objs[bs]? = some b := by
    simpa [Heap.store] using hb
  refine ⟨rfl, rfl, ?_, ?_, ?_, ?_⟩
  · rw [content_eq _ bs b hb2, content_eq h bs b hb]
    simp only [Heap.read]
    rw [store_array_self h _ _ _ ha]
    exact read_store_inside _ _ _ _ _ hi (by omega)
  · rw [Get_eq _ bs b i hb2 hv hi, store_array_self h _ _ _ ha]
    have h1 : b.Data.off + i < (h.array b.Data.arr).length := by omega
    simp [h1]
  · intro j hj hne
    refine ⟨_, Get_eq _ bs b j hb2 hv hj, ?_⟩
    rw [content_getElem? h bs b j hb ⟨ha, hc, hlc⟩ hj, store_array_self h _ _ _ ha]
    have h1 : ¬ b.Data.off + i = b.Data.off + j := by omega
    simp [List.getElem?_set, h1]
  · simp [Len, hb2, hb]

/-- Witness for C14: on `b = [1,2,3]`, `b.Set(1, 9)` gives `[1,9,3]`. -/
theorem Set_exact_witness :
    (heap123.objs[0]? = some ⟨⟨0, 0, 3, 3⟩, false⟩ ∧ heap123.WFSlice ⟨0, 0, 3, 3⟩ ∧ 1 < 3) ∧
    (Set 0 1 9 heap123).2.content 0 = [1, 9, 3] ∧
    (Set 0 1 9 heap123).1 = .ok () ∧
    Get 0 1 (Set 0 1 9 heap123).2 = (.ok 9, (Set 0 1 9 heap123).2) ∧
    (Len 0 (Set 0 1 9 heap123).2).1 = (Len 0 heap123).1 :=
  have T := Set_exact heap123 0 ⟨⟨0, 0, 3, 3⟩, false⟩ 1 9 (by decide) (by decide) (by decide)
    (by decide)
  ⟨by decide, by decide, T.1, T.2.2.2.1, T.2.2.2.2.2⟩

/-! ## Append and AppendBytes -/

theorem writeAt_array_self (h : Heap) (a i : Nat) (vs : List Byte) (ha : a < h.arrays.length) :
    (h.writeAt a i vs).array a = overwrite (h.array a) i vs := by
  simp [Heap.writeAt, Heap.array, ha]

theorem writeAt_array_ne (h : Heap) (a c i : Nat) (vs : List Byte) (hne : a ≠ c) :
    (h.writeAt a i vs).array c = h.array c := by
  simp [Heap.writeAt, Heap.array, List.getElem?_set_ne hne]

theorem read_length (h : Heap) (s : Slice) (hwf : h.WFSlice s) : (h.read s).length = s.len := by
  obtain ⟨-, hc, hlc⟩ := hwf
  simp [Heap.read]
  omega

theorem append_array_new (h : Heap) (l : List Byte) :
    (Heap.mk (h.arrays ++ [l]) h.objs).array h.arrays.length = l := by
  simp [Heap.array]

theorem append_array_old (h : Heap) (l : List Byte) (a : Nat) (ha : a < h.arrays.length) :
    (Heap.mk (h.arrays ++ [l]) h.objs).array a = h.array a := by
  simp [Heap.array, List.getElem?_append_left ha]

/-- The slice that `append` returns shows the old elements followed by the new
ones, whether or not a new backing array was allocated. -/
theorem goAppend_read (grow : Nat → Nat → Nat) (h : Heap) (s : Slice) (vs : List Byte)
    (hwf : h.WFSlice s) :
    (goAppend grow h s vs).2.read (goAppend grow h s vs).1 = h.read s ++ vs ∧
    (goAppend grow h s vs).1.len = s.len + vs.length ∧
    (goAppend grow h s vs).2.objs = h.objs := by
  have hrl := read_length h s hwf
  obtain ⟨ha, hc, hlc⟩ := hwf
  by_cases hfit : s.len + vs.length ≤ s.cap
  · rw [goAppend_fit grow h s vs hfit]
    refine ⟨?_, rfl, rfl⟩
    simp only [Heap.read]
    rw [writeAt_array_self h _ _ _ ha,
      read_overwrite_inside _ _ _ _ _ (le_refl _) (by omega)]
    have hnil : (((h.array s.arr).drop s.off).take (s.len + vs.length)).drop
        (s.len + vs.length) = [] := List.drop_eq_nil_of_le (by simp)
    simp only [overwrite, List.take_take, Nat.min_eq_left (Nat.le_add_right _ _), hnil,
      List.append_nil]
  · rw [goAppend_grow grow h s vs hfit]
    refine ⟨?_, rfl, rfl⟩
    simp only [Heap.read]
    have hl : (h.read s ++ vs).length = s.len + vs.length := by
      rw [List.length_append, hrl]
    simp only [Heap.read] at hl
    rw [append_array_new, List.drop_zero,
      List.take_append_of_le_length (Nat.le_of_eq hl.symm),
      List.take_of_length_le (Nat.le_of_eq hl)]

/-- What `append` leaves alone: a window of a backing array that exists and that
does not overlap the storage window of the slice appended to. -/
theorem goAppend_frame (grow : Nat → Nat → Nat) (h : Heap) (s : Slice) (vs : List Byte)
    (a o L : Nat) (hwf : h.WFSlice s) (ha : a < h.arrays.length)
    (hsep : s.arr ≠ a ∨ s.off + s.cap ≤ o ∨ o + L ≤ s.off) :
    (((goAppend grow h s vs).2.array a).drop o).take L = ((h.array a).drop o).take L := by
  obtain ⟨hsa, hc, hlc⟩ := hwf
  by_cases hfit : s.len + vs.length ≤ s.cap
  · rw [goAppend_fit grow h s vs hfit]
    by_cases harr : s.arr = a
    · subst harr
      rw [writeAt_array_self h _ _ _ hsa]
      exact read_overwrite_outside _ _ _ _ _ (by omega) (by omega)
    · rw [writeAt_array_ne h _ _ _ _ harr]
  · rw [goAppend_grow grow h s vs hfit, append_array_old h _ a ha]

theorem setData_content_self (h : Heap) (bs : Nat) (b : Bytes) (s : Slice)
    (hlt : bs < h.objs.length) : (h.setData bs b s).content bs = h.read s := by
  rw [content_eq _ bs ⟨s, b.Invalid⟩ (by simp [Heap.setData, hlt])]
  rfl

theorem setData_content_ne (h : Heap) (bs q : Nat) (b : Bytes) (s : Slice) (hne : bs ≠ q) :
    (h.setData bs b s).content q = h.content q := by
  simp [Heap.content, Heap.setData, List.getElem?_set_ne hne, Heap.read, Heap.array]

theorem AppendBytes_eq (grow : Nat → Nat → Nat) (h : Heap) (bs other : Nat) (b o : Bytes)
    (hb : h.objs[bs]? = some b) (ho : h.objs[other]? = some o)
    (hbv : b.Invalid = false) (hov : o.Invalid = false) (hne : other ≠ bs) :
    AppendBytes grow bs other h =
      (.ok (), (goAppend grow h b.Data (h.read o.Data)).2.setData bs b
        (goAppend grow h b.Data (h.read o.Data)).1) := by
  simp [AppendBytes, hb, ho, hbv, hov, hne]

/-- C15. `Append` adds one byte at the end: for a valid buffer `bs` with content
`C` and a byte `v`, `Append(v)` succeeds whatever the growth policy; afterwards the
content is `C` followed by `v`, whether or not the storage was reallocated, and
`Len(bs)` has grown by exactly one (as long as the new length is a `uint64`). -/
theorem Append_exact (grow : Nat → Nat → Nat) (h : Heap) (bs : Nat) (b : Bytes) (v : Byte)
    (hb : h.objs[bs]? = some b) (hv : b.Invalid = false) (hwf : h.WFSlice b.Data) :
    (Append grow bs v h).1 = .ok () ∧
    (Append grow bs v h).2.content bs = h.content bs ++ [v] ∧
    ((Append grow bs v h).2.content bs).length = (h.content bs).length + 1 ∧
    (b.Data.len + 1 < 2 ^ 64 →
      (Len bs h).1 = .ok b.Data.len ∧ (Len bs (Append grow bs v h).2).1 = .ok (b.Data.len + 1)) := by
  have hlt := lt_of_getElem?_eq_some hb
  have hg := goAppend_read grow h b.Data [v] hwf
  rw [Append_eq grow h bs b v hb hv]
  have hlt2 : bs < (goAppend grow h b.Data [v]).2.objs.length := by rw [hg.2.2]; exact hlt
  have hcont : ((goAppend grow h b.Data [v]).2.setData bs b
      (goAppend grow h b.Data [v]).1).content bs = h.content bs ++ [v] := by
    rw [setData_content_self _ _ _ _ hlt2, hg.1, content_eq h bs b hb]
  refine ⟨rfl, hcont, by rw [hcont]; simp, ?_⟩
  intro hsz
  constructor
  · simp only [Len, hb]
    rw [u64_of_lt _ (by omega)]
  · have hobj : ((goAppend grow h b.Data [v]).2.setData bs b
        (goAppend grow h b.Data [v]).1).objs[bs]? =
        some ⟨(goAppend grow h b.Data [v]).1, b.Invalid⟩ := by
      simp [Heap.setData, hlt2]
    simp only [Len, hobj, hg.2.1]
    rw [u64_of_lt _ (by simpa using hsz)]
    rfl

/-- Witness for C15 on `b = [1,2,3]` (no spare capacity, so a new backing array is
allocated): `b.Append(9)` gives `[1,2,3,9]`. -/
theorem Append_exact_witness :
    (heap123.objs[0]? = some ⟨⟨0, 0, 3, 3⟩, false⟩ ∧ heap123.WFSlice ⟨0, 0, 3, 3⟩ ∧
      3 + 1 < 2 ^ 64) ∧
    (Append growDouble 0 9 heap123).2.content 0 = [1, 2, 3, 9] ∧
    ((Append growDouble 0 9 heap123).1 = .ok () ∧
      (Append growDouble 0 9 heap123).2.content 0 = heap123.content 0 ++ [9] ∧
      (Len 0 heap123).1 = .ok 3 ∧
      (Len 0 (Append growDouble 0 9 heap123).2).1 = .ok (3 + 1)) :=
  have T := Append_exact growDouble heap123 0 ⟨⟨0, 0, 3, 3⟩, false⟩ 9 (by decide) (by decide)
    (by decide)
  ⟨by decide, by decide, T.1, T.2.1, (T.2.2.2 (by decide)).1, (T.2.2.2 (by decide)).2⟩

/-- C12, counterexample. With `s = [1,2,3,4,5]`, `b = Data(s[:2])` and
`o = Data(s[1:4])`, two valid buffers that are distinct instances, the call
`b.AppendBytes(o)` succeeds and `b` becomes `[1,2,2,3,4]` as requested, but the
append runs in place (the needed length `5` is within the capacity `5` of `b`) and
the content of `other` is not unchanged: `o` goes from `[2,3,4]` to `[2,2,3]`. -/
theorem AppendBytes_exact_counterexample :
    ((sliceLit [1, 2, 3, 4, 5] Heap.empty).1.slice 0 2 = some ⟨0, 0, 2, 5⟩ ∧
      (sliceLit [1, 2, 3, 4, 5] Heap.empty).1.slice 1 4 = some ⟨0, 1, 3, 4⟩) ∧
    heapSharedAppend.objs[0]? = some ⟨⟨0, 0, 2, 5⟩, false⟩ ∧
    heapSharedAppend.objs[1]? = some ⟨⟨0, 1, 3, 4⟩, false⟩ ∧
    heapSharedAppend.WFSlice ⟨0, 0, 2, 5⟩ ∧ heapSharedAppend.WFSlice ⟨0, 1, 3, 4⟩ ∧
    heapSharedAppend.content 0 = [1, 2] ∧
    heapSharedAppend.content 1 = [2, 3, 4] ∧
    (∀ grow : Nat → Nat → Nat,
      (AppendBytes grow 0 1 heapSharedAppend).1 = .ok () ∧
      (AppendBytes grow 0 1 heapSharedAppend).2.content 0 = [1, 2, 2, 3, 4] ∧
      (AppendBytes grow 0 1 heapSharedAppend).2.content 1 = [2, 2, 3] ∧
      (AppendBytes grow 0 1 heapSharedAppend).2.content 1 ≠ heapSharedAppend.content 1) := by
  refine ⟨by decide, by decide, by decide, by decide, by decide, by decide, by decide, ?_⟩
  intro grow
  have hfit : (⟨0, 0, 2, 5⟩ : Slice).len + (heapSharedAppend.read ⟨0, 1, 3, 4⟩).length ≤
      (⟨0, 0, 2, 5⟩ : Slice).cap := by decide
  have heq : AppendBytes grow 0 1 heapSharedAppend =
      (.ok (), (heapSharedAppend.writeAt 0 2 (heapSharedAppend.read ⟨0, 1, 3, 4⟩)).setData 0
        ⟨⟨0, 0, 2, 5⟩, false⟩ ⟨0, 0, 5, 5⟩) := by
    rw [AppendBytes_eq grow heapSharedAppend 0 1 ⟨⟨0, 0, 2, 5⟩, false⟩ ⟨⟨0, 1, 3, 4⟩, false⟩
      (by decide) (by decide) rfl rfl (by decide),
      goAppend_fit grow heapSharedAppend ⟨0, 0, 2, 5⟩ _ hfit]
    rfl
  rw [heq]
  decide

/-- C12, amended. `AppendBytes` concatenates, and aliasing is a matter of identity
only: for valid buffers `bs` (content `S`) and `other` (content `O`) that are two
distinct objects, whatever their contents (equal contents included), the call
succeeds without a self-aliasing panic; afterwards the content of `bs` is `S`
followed by `O`, and `Len(bs)` is `Len(S) + Len(O)` (as long as that is a
`uint64`).  The content of `other` is as before provided the two buffers own
disjoint storage (different backing arrays, or capacity windows that do not
overlap). -/
theorem AppendBytes_exact (grow : Nat → Nat → Nat) (h : Heap) (bs other : Nat) (b o : Bytes)
    (hb : h.objs[bs]? = some b) (ho : h.objs[other]? = some o)
    (hbv : b.Invalid = false) (hov : o.Invalid = false) (hne : other ≠ bs)
    (hbw : h.WFSlice b.Data) (how : h.WFSlice o.Data) :
    (AppendBytes grow bs other h).1 = .ok () ∧
    (AppendBytes grow bs other h).2.content bs = h.content bs ++ h.content other ∧
    ((AppendBytes grow bs other h).2.content bs).length =
      (h.content bs).length + (h.content other).length ∧
    (b.Data.len + o.Data.len < 2 ^ 64 →
      (Len bs h).1 = .ok b.Data.len ∧ (Len other h).1 = .ok o.Data.len ∧
      (Len bs (AppendBytes grow bs other h).2).1 = .ok (b.Data.len + o.Data.len)) ∧
    (Separate b.Data o.Data →
      (AppendBytes grow bs other h).2.content other = h.content other) := by
  have hlt := lt_of_getElem?_eq_some hb
  have hg := goAppend_read grow h b.Data (h.read o.Data) hbw
  have hol := read_length h o.Data how
  rw [AppendBytes_eq grow h bs other b o hb ho hbv hov hne]
  have hlt2 : bs < (goAppend grow h b.Data (h.read o.Data)).2.objs.length := by
    rw [hg.2.2]; exact hlt
  have hcont : ((goAppend grow h b.Data (h.read o.Data)).2.setData bs b
      (goAppend grow h b.Data (h.read o.Data)).1).content bs =
      h.content bs ++ h.content other := by
    rw [setData_content_self _ _ _ _ hlt2, hg.1, content_eq h bs b hb, content_eq h other o ho]
  refine ⟨rfl, hcont, by rw [hcont]; simp, ?_, ?_⟩
  · intro hsz
    refine ⟨?_, ?_, ?_⟩
    · simp only [Len, hb]
      rw [u64_of_lt _ (by omega)]
    · simp only [Len, ho]
      rw [u64_of_lt _ (by omega)]
    · have hobj : ((goAppend grow h b.Data (h.read o.Data)).2.setData bs b
          (goAppend grow h b.Data (h.read o.Data)).1).objs[bs]? =
          some ⟨(goAppend grow h b.Data (h.read o.Data)).1, b.Invalid⟩ := by
        simp [Heap.setData, hlt2]
      simp only [Len, hobj, hg.2.1, hol]
      rw [u64_of_lt _ hsz]
  · intro hsep
    rw [setData_content_ne _ _ _ _ _ (Ne.symm hne)]
    have ho2 : (goAppend grow h b.Data (h.read o.Data)).2.objs[other]? = some o := by
      rw [hg.2.2]; exact ho
    rw [content_eq _ other o ho2, content_eq h other o ho]
    simp only [Heap.read]
    apply goAppend_frame grow h b.Data _ _ _ _ hbw how.1
    have holc := how.2.2
    unfold Separate at hsep
    omega

/-- Witness for the amended C12: after `a := Data([]byte{1,2})` and `b := Data([]byte{1,2})`,
two distinct buffers (pointers `0` and `1`) with equal contents, `a.AppendBytes(b)`
succeeds with `a = [1,2,1,2]` and `b = [1,2]`. -/
theorem AppendBytes_exact_witness :
    ((DataLit [1, 2] (DataLit [1, 2] Heap.empty).2).2.objs[0]? = some ⟨⟨0, 0, 2, 2⟩, false⟩ ∧
      (DataLit [1, 2] (DataLit [1, 2] Heap.empty).2).2.objs[1]? = some ⟨⟨1, 0, 2, 2⟩, false⟩) ∧
    (AppendBytes growDouble 0 1 (DataLit [1, 2] (DataLit [1, 2] Heap.empty).2).2).2.content 0
      = [1, 2, 1, 2] ∧
    (AppendBytes growDouble 0 1 (DataLit [1, 2] (DataLit [1, 2] Heap.empty).2).2).2.content 1
      = [1, 2] ∧
    (AppendBytes growDouble 0 1 (DataLit [1, 2] (DataLit [1, 2] Heap.empty).2).2).1 = .ok () ∧
    (Len 0 (AppendBytes growDouble 0 1 (DataLit [1, 2] (DataLit [1, 2] Heap.empty).2).2).2).1
      = .ok (2 + 2) ∧
    (AppendBytes growDouble 0 1 (DataLit [1, 2] (DataLit [1, 2] Heap.empty).2).2).2.content 1
      = (DataLit [1, 2] (DataLit [1, 2] Heap.empty).2).2.content 1 :=
  have T := AppendBytes_exact growDouble (DataLit [1, 2] (DataLit [1, 2] Heap.empty).2).2 0 1
    ⟨⟨0, 0, 2, 2⟩, false⟩ ⟨⟨1, 0, 2, 2⟩, false⟩ (by decide) (by decide) (by decide)
    (by decide) (by decide) (by decide) (by decide)
  ⟨by decide, by decide, by decide, T.1, (T.2.2.2.1 (by decide)).2.2, T.2.2.2.2 (by decide)⟩

/-! ## NewBytes -/

theorem NewBytes_alloc (maxLen n : Nat) (h : Heap) (hn : n ≤ maxLen) :
    NewBytes maxLen n h = (.ok h.objs.length,
      ⟨h.arrays ++ [List.replicate n 0],
       h.objs ++ [⟨⟨h.arrays.length, 0, n, n⟩, false⟩]⟩) := by
  simp [NewBytes, hn, Heap.newArray, Heap.newObj]

/-- C16, counterexample. `NewBytes(1 << 63)` does not return a buffer: `make`
panics, whatever the limit of the runtime is (it is at most the largest `int`),
although `1 << 63` is a `uint64`. -/
theorem NewBytes_counterexample :
    (2 : Nat) ^ 63 < 2 ^ 64 ∧
    NewBytes maxInt (2 ^ 63) Heap.empty = (.fail .OutOfBounds, Heap.empty) ∧
    (∀ p, (NewBytes maxInt (2 ^ 63) Heap.empty).1 ≠ .ok p) ∧
    (∀ maxLen, maxLen ≤ maxInt →
      NewBytes maxLen (2 ^ 63) Heap.empty = (.fail .OutOfBounds, Heap.empty)) := by
  have hgen : ∀ maxLen, maxLen ≤ maxInt →
      NewBytes maxLen (2 ^ 63) Heap.empty = (.fail .OutOfBounds, Heap.empty) := by
    intro maxLen hle
    have hn : ¬ 2 ^ 63 ≤ maxLen := by
      unfold maxInt at hle
      omega
    simp only [NewBytes, hn, if_false]
  refine ⟨by decide, hgen maxInt (le_refl _), ?_, hgen⟩
  intro p
  rw [hgen maxInt (le_refl _)]
  simp

/-- C16, amended. For every length `n` within the limit `maxLen` of the runtime,
`NewBytes(n)` returns a new valid buffer over a new backing array, with content `n`
zero bytes, `Get(i) == 0` for every `i < n`, and `Len == n` (`n` being a `uint64`);
for `n` beyond the limit `make` panics and the heap is unchanged. -/
theorem NewBytes_zero (maxLen n : Nat) (h : Heap) :
    (n ≤ maxLen →
      (NewBytes maxLen n h).1 = .ok h.objs.length ∧
      (NewBytes maxLen n h).2.objs[h.objs.length]? =
        some ⟨⟨h.arrays.length, 0, n, n⟩, false⟩ ∧
      (NewBytes maxLen n h).2.content h.objs.length = List.replicate n 0 ∧
      (∀ i, i < n →
        Get h.objs.length i (NewBytes maxLen n h).2 = (.ok 0, (NewBytes maxLen n h).2)) ∧
      (n < 2 ^ 64 → (Len h.objs.length (NewBytes maxLen n h).2).1 = .ok n)) ∧
    (maxLen < n → NewBytes maxLen n h = (.fail .OutOfBounds, h)) := by
  constructor
  · intro hn
    have heq : NewBytes maxLen n h = (.ok h.objs.length,
        ⟨h.arrays ++ [List.replicate n 0],
         h.objs ++ [⟨⟨h.arrays.length, 0, n, n⟩, false⟩]⟩) := by
      simp [NewBytes, hn, Heap.newArray, Heap.newObj]
    rw [heq]
    have hobj : (Heap.mk (h.arrays ++ [List.replicate n 0])
        (h.objs ++ [⟨⟨h.arrays.length, 0, n, n⟩, false⟩])).objs[h.objs.length]? =
        some ⟨⟨h.arrays.length, 0, n, n⟩, false⟩ := by
      simp [List.getElem?_append_right]
    have harr : (Heap.mk (h.arrays ++ [List.replicate n 0])
        (h.objs ++ [⟨⟨h.arrays.length, 0, n, n⟩, false⟩])).array h.arrays.length =
        List.replicate n 0 := by
      simp [Heap.array]
    refine ⟨rfl, hobj, ?_, ?_, ?_⟩
    · rw [content_eq _ _ _ hobj]
      simp only [Heap.read, harr, List.drop_zero]
      exact List.take_of_length_le (by simp)
    · intro i hi
      rw [Get_eq _ _ _ i hobj rfl hi, harr]
      simp [List.getElem?_replicate, hi]
    · intro h64
      simp only [Len, hobj]
      rw [u64_of_lt _ h64]
  · intro hn
    simp [NewBytes, Nat.not_le.mpr hn]

/-- Witness for the amended C16: `NewBytes(5)` has `Get(i) == 0` for `i = 0..4`,
and `NewBytes(1<<64 - 1)` panics. -/
theorem NewBytes_zero_witness :
    (NewBytes maxInt 5 Heap.empty).1 = .ok 0 ∧
    (NewBytes maxInt 5 Heap.empty).2.content 0 = [0, 0, 0, 0, 0] ∧
    Get 0 0 (NewBytes maxInt 5 Heap.empty).2 = (.ok 0, (NewBytes maxInt 5 Heap.empty).2) ∧
    Get 0 4 (NewBytes maxInt 5 Heap.empty).2 = (.ok 0, (NewBytes maxInt 5 Heap.empty).2) ∧
    (Len 0 (NewBytes maxInt 5 Heap.empty).2).1 = .ok 5 ∧
    NewBytes maxInt (2 ^ 64 - 1) Heap.empty = (.fail .OutOfBounds, Heap.empty) :=
  have T := (NewBytes_zero maxInt 5 Heap.empty).1 (by decide)
  ⟨T.1, T.2.2.1, T.2.2.2.1 0 (by decide), T.2.2.2.1 4 (by decide), T.2.2.2.2 (by decide),
   (NewBytes_zero maxInt (2 ^ 64 - 1) Heap.empty).2 (by decide)⟩

/-! ## CopySegment: the `uint64` sum -/

/-- C20. No wrap-around is accepted in `CopySegment`: for valid, distinct buffers
and `uint64` arguments `src`, `count` whose true sum is at least `2^64` (so that the
`uint64` sum `src+count` wraps), the call fails with an out-of-bounds panic and the
heap is unchanged: the wrapped sum is below `src`, so the slice expression
`other.Data[src:src+count]` is rejected. -/
theorem CopySegment_no_wrap (h : Heap) (bs other : Nat) (b o : Bytes) (dst src count : Nat)
    (hb : h.objs[bs]? = some b) (ho : h.objs[other]? = some o)
    (hbv : b.Invalid = false) (hov : o.Invalid = false) (hne : other ≠ bs)
    (hsrc : src < 2 ^ 64) (hcount : count < 2 ^ 64) (hwrap : 2 ^ 64 ≤ src + count) :
    CopySegment bs dst other src count h = (.fail .OutOfBounds, h) ∧
    u64 (src + count) < src := by
  have hu : u64 (src + count) < src := by
    unfold u64
    omega
  exact ⟨(CopySegment_fail_iff h bs other b o dst src count hb ho hbv hov hne).1.2
    (Or.inr (Or.inl hu)), hu⟩

/-- Witness for C20: with `d = [0,0,0,0]` and `c = [10,20,30]`,
`d.CopySegment(0, c, 2^64 - 1, 2)` fails, although the wrapped sum `1` is within the
length of `c`. -/
theorem CopySegment_no_wrap_witness :
    (heapCD.objs[1]? = some ⟨⟨1, 0, 4, 4⟩, false⟩ ∧ heapCD.objs[0]? = some ⟨⟨0, 0, 3, 3⟩, false⟩ ∧
      u64 (2 ^ 64 - 1 + 2) = 1) ∧
    CopySegment 1 0 0 (2 ^ 64 - 1) 2 heapCD = (.fail .OutOfBounds, heapCD) ∧
    u64 (2 ^ 64 - 1 + 2) < 2 ^ 64 - 1 :=
  ⟨by decide,
   CopySegment_no_wrap heapCD 1 0 ⟨⟨1, 0, 4, 4⟩, false⟩ ⟨⟨0, 0, 3, 3⟩, false⟩ 0 (2 ^ 64 - 1) 2
     (by decide) (by decide) (by decide) (by decide) (by decide) (by decide) (by decide)
     (by decide)⟩

/-! ## The validity marker -/

theorem goAppend_objs (grow : Nat → Nat → Nat) (h : Heap) (s : Slice) (vs : List Byte) :
    (goAppend grow h s vs).2.objs = h.objs := by
  by_cases hfit : s.len + vs.length ≤ s.cap
  · rw [goAppend_fit grow h s vs hfit]; rfl
  · rw [goAppend_grow grow h s vs hfit]

/-- Assigning `bs.Data` keeps every marker. -/
theorem marker_setData (h k : Heap) (bs p : Nat) (b : Bytes) (s : Slice)
    (hk : k.objs = h.objs) (hb : h.objs[bs]? = some b) :
    (k.setData bs b s).marker p = h.marker p := by
  have hlt := lt_of_getElem?_eq_some hb
  simp only [Heap.marker, Heap.setData, hk]
  by_cases hp : bs = p
  · subst hp
    simp [hlt, hb]
  · rw [List.getElem?_set_ne hp]

/-- Allocating an object keeps the marker of every object that exists. -/
theorem marker_newObj (h : Heap) (nb : Bytes) (p : Nat) (m : Bool)
    (hm : h.marker p = some m) : (h.newObj nb).2.marker p = some m := by
  have hlt : p < h.objs.length := by
    by_contra hc
    simp [Heap.marker, List.getElem?_eq_none (Nat.le_of_not_lt hc)] at hm
  simpa [Heap.marker, Heap.newObj, List.getElem?_append_left hlt] using hm

/-- One call keeps the marker of every object that exists. -/
theorem Call_marker (grow : Nat → Nat → Nat) (c : Call) (h : Heap) (p : Nat) (m : Bool)
    (hm : h.marker p = some m) : (c.run grow h).marker p = some m := by
  cases c with
  | Len bs =>
    cases hb : h.objs[bs]? <;> simpa [Call.run, Len, hb] using hm
  | Get bs i =>
    simp only [Call.run, Get]
    repeat' split
    all_goals exact hm
  | Set bs i v =>
    simp only [Call.run, Set]
    repeat' split
    all_goals exact hm
  | Append bs v =>
    cases hb : h.objs[bs]? with
    | none => simpa [Call.run, Append, hb] using hm
    | some b =>
      cases hv : b.Invalid with
      | true => simpa [Call.run, Append, hb, hv] using hm
      | false =>
        simp only [Call.run, Append_eq grow h bs b v hb hv]
        rw [marker_setData h _ bs p b _ (goAppend_objs grow h _ _) hb]
        exact hm
  | AppendBytes bs other =>
    cases hb : h.objs[bs]? with
    | none => simpa [Call.run, AppendBytes, hb] using hm
    | some b =>
      cases hv : b.Invalid with
      | true => simpa [Call.run, AppendBytes, hb, hv] using hm
      | false =>
        cases ho : h.objs[other]? with
        | none => simpa [Call.run, AppendBytes, hb, hv, ho] using hm
        | some o =>
          cases hov : o.Invalid with
          | true => simpa [Call.run, AppendBytes, hb, hv, ho, hov] using hm
          | false =>
            by_cases hne : other = bs
            · simpa [Call.run, AppendBytes, hb, hv, ho, hov, hne] using hm
            · simp only [Call.run, AppendBytes_eq grow h bs other b o hb ho hv hov hne]
              rw [marker_setData h _ bs p b _ (goAppend_objs grow h _ _) hb]
              exact hm
  | Subslice bs start stop =>
    cases hb : h.objs[bs]? with
    | none => simpa [Call.run, Subslice, hb] using hm
    | some b =>
      cases hv : b.Invalid with
      | true => simpa [Call.run, Subslice, hb, hv] using hm
      | false =>
        cases hs : b.Data.slice start stop with
        | none => simpa [Call.run, Subslice, hb, hv, hs] using hm
        | some t =>
          have heq : Subslice bs start stop h = (.ok (), h.setData bs b t) := by
            simp [Subslice, hb, hv, hs]
          simp only [Call.run, heq]
          rw [marker_setData h h bs p b t rfl hb]
          exact hm
  | CopySegment bs dst other src count =>
    simp only [Call.run, CopySegment]
    repeat' split
    all_goals exact hm
  | Split bs off =>
    cases hb : h.objs[bs]? with
    | none => simpa [Call.run, Split, hb] using hm
    | some b =>
      cases hv : b.Invalid with
      | true => simpa [Call.run, Split, hb, hv] using hm
      | false =>
        cases h3 : b.Data.slice3 0 off off with
        | none => simpa [Call.run, Split, hb, hv, h3] using hm
        | some first =>
          cases h2 : b.Data.sliceFrom off with
          | none => simpa [Call.run, Split, hb, hv, h3, h2] using hm
          | some second =>
            have heq : Split bs off h = (.ok (h.setData bs b first).objs.length,
                ((h.setData bs b first).newObj ⟨second, false⟩).2) := by
              simp [Split, hb, hv, h3, h2, Heap.newObj]
            simp only [Call.run, heq]
            apply marker_newObj
            rw [marker_setData h h bs p b first rfl hb]
            exact hm

/-- A sequence of calls keeps the marker of every object that exists. -/
theorem runCalls_marker (grow : Nat → Nat → Nat) (cs : List Call) :
    ∀ (h : Heap) (p : Nat) (m : Bool), h.marker p = some m →
      (runCalls grow cs h).marker p = some m := by
  induction cs with
  | nil => intro h p m hm; exact hm
  | cons c cs ih =>
    intro h p m hm
    exact ih _ p m (Call_marker grow c h p m hm)

theorem Split_marker_new (bs off : Nat) (h : Heap) (r : Nat)
    (hr : (Split bs off h).1 = .ok r) : (Split bs off h).2.marker r = some false := by
  cases hb : h.objs[bs]? with
  | none => simp [Split, hb] at hr
  | some b =>
    cases hv : b.Invalid with
    | true => simp [Split, hb, hv] at hr
    | false =>
      cases h3 : b.Data.slice3 0 off off with
      | none => simp [Split, hb, hv, h3] at hr
      | some first =>
        cases h2 : b.Data.sliceFrom off with
        | none => simp [Split, hb, hv, h3, h2] at hr
        | some second =>
          have heq : Split bs off h = (.ok (h.setData bs b first).objs.length,
              ((h.setData bs b first).newObj ⟨second, false⟩).2) := by
            simp [Split, hb, hv, h3, h2, Heap.newObj]
          rw [heq] at hr ⊢
          have hr2 : r = (h.setData bs b first).objs.length := by
            simpa using hr.symm
          subst hr2
          simp [Heap.marker, Heap.newObj, List.getElem?_append_right]

/-- C17. The validity marker is never touched: `NewBytes` (when it returns) and
`Data` return valid buffers, the buffer returned by `Split` is valid, and no call
of `Len`, `Get`, `Set`, `Append`, `AppendBytes`, `Subslice`, `CopySegment` or
`Split`, whether it returns or panics, changes the marker of any existing buffer;
hence after every sequence of calls an invalid buffer is still invalid and a valid
one is still valid. -/
theorem marker_never_touched (grow : Nat → Nat → Nat) :
    (∀ maxLen sz h p, (NewBytes maxLen sz h).1 = .ok p →
      (NewBytes maxLen sz h).2.marker p = some false) ∧
    (∀ data h, (Data data h).2.marker (Data data h).1 = some false) ∧
    (∀ bs off h r, (Split bs off h).1 = .ok r → (Split bs off h).2.marker r = some false) ∧
    (∀ (c : Call) h p m, h.marker p = some m → (c.run grow h).marker p = some m) ∧
    (∀ (cs : List Call) h p m, h.marker p = some m →
      (runCalls grow cs h).marker p = some m) := by
  refine ⟨?_, ?_, ?_, ?_, ?_⟩
  · intro maxLen sz h p hp
    by_cases hn : sz ≤ maxLen
    · have hz := (NewBytes_alloc maxLen sz h hn)
      rw [hz] at hp ⊢
      have hp2 : p = h.objs.length := by simpa using hp.symm
      subst hp2
      simp [Heap.marker, List.getElem?_append_right]
    · simp [NewBytes, hn] at hp
  · intro data h
    simp [Heap.marker, Data, Heap.newObj, List.getElem?_append_right]
  · intro bs off h r hr
    exact Split_marker_new bs off h r hr
  · intro c h p m hm
    exact Call_marker grow c h p m hm
  · intro cs h p m hm
    exact runCalls_marker grow cs h p m hm

/-- Witness for C17 on `heapInvalid` (buffer `0` valid, buffer `1` invalid): after
`b0.Append(7)`, `b0.Split(1)`, `b1.Subslice(0, 1)` and `b0.CopySegment(0, b1, 0, 1)`
the markers are as before, and the buffer returned by `b0.Split(1)` is valid. -/
theorem marker_never_touched_witness :
    (heapInvalid.marker 0 = some false ∧ heapInvalid.marker 1 = some true ∧
      (Split 0 1 heapInvalid).1 = .ok 2) ∧
    (runCalls growDouble [.Append 0 7, .Split 0 1, .Subslice 1 0 1, .CopySegment 0 0 1 0 1]
      heapInvalid).marker 0 = some false ∧
    (runCalls growDouble [.Append 0 7, .Split 0 1, .Subslice 1 0 1, .CopySegment 0 0 1 0 1]
      heapInvalid).marker 1 = some true ∧
    (Split 0 1 heapInvalid).2.marker 2 = some false :=
  ⟨by decide,
   (marker_never_touched growDouble).2.2.2.2 _ heapInvalid 0 false (by decide),
   (marker_never_touched growDouble).2.2.2.2 _ heapInvalid 1 true (by decide),
   (marker_never_touched growDouble).2.2.1 0 1 heapInvalid 2 (by decide)⟩

/-! ## Split: the capacity of the left buffer -/

/-- C18. `Split` truncates the capacity of the left buffer to its length: for a
valid buffer `bs` with any capacity and `off <= Len(bs)`, after
`r = bs.Split(off)` the slice of `bs` has length `off` and capacity exactly `off`;
the very next `Append` on `bs`, under every growth policy, stores into a newly
allocated backing array and leaves every existing backing array (that of `r`
included) as it was. -/
theorem Split_truncates_capacity (grow : Nat → Nat → Nat) (h : Heap) (bs : Nat) (b : Bytes)
    (off : Nat) (v : Byte) (hb : h.objs[bs]? = some b) (hv : b.Invalid = false)
    (hwf : h.WFSlice b.Data) (hoff : off ≤ b.Data.len) :
    (Split bs off h).2.objs[bs]? = some ⟨⟨b.Data.arr, b.Data.off, off, off⟩, false⟩ ∧
    (Split bs off h).2.arrays = h.arrays ∧
    (∃ s l, (Append grow bs v (Split bs off h).2).2.objs[bs]? = some ⟨s, false⟩ ∧
      s.arr = h.arrays.length ∧ s.arr ≠ b.Data.arr ∧
      (Append grow bs v (Split bs off h).2).2.arrays = h.arrays ++ [l]) := by
  have hlt := lt_of_getElem?_eq_some hb
  have hobj : (Split bs off h).2.objs[bs]? =
      some ⟨⟨b.Data.arr, b.Data.off, off, off⟩, false⟩ := by
    rw [Split_eq h bs b off hb hv hwf.2.2 hoff]
    simp [List.getElem?_append_left, hlt]
  have harr : (Split bs off h).2.arrays = h.arrays := by
    rw [Split_eq h bs b off hb hv hwf.2.2 hoff]
  refine ⟨hobj, harr, ?_⟩
  have hlt2 := lt_of_getElem?_eq_some hobj
  have hfit : ¬ (⟨b.Data.arr, b.Data.off, off, off⟩ : Slice).len + [v].length ≤
      (⟨b.Data.arr, b.Data.off, off, off⟩ : Slice).cap := by
    simp
  rw [Append_eq grow _ bs _ v hobj rfl, goAppend_grow grow _ _ [v] hfit, harr]
  refine ⟨⟨h.arrays.length, 0, off + 1, max (off + 1) (grow off (off + 1))⟩, _, ?_, rfl,
    ?_, rfl⟩
  · simp [Heap.setData, hlt2]
  · have := hwf.1
    show h.arrays.length ≠ b.Data.arr
    omega

/-- Witness for C18: after `Data([1,2,3,4,5]).Split(2)` the left slice has length
and capacity `2`, and `b.Append(9)` allocates backing array number `1`, leaving
array `0` (shared with `r`) as `[1,2,3,4,5]`. -/
theorem Split_truncates_capacity_witness :
    (heap12345.objs[0]? = some ⟨⟨0, 0, 5, 5⟩, false⟩ ∧ heap12345.WFSlice ⟨0, 0, 5, 5⟩) ∧
    (Split 0 2 heap12345).2.objs[0]? = some ⟨⟨0, 0, 2, 2⟩, false⟩ ∧
    (Append growDouble 0 9 (Split 0 2 heap12345).2).2.arrays =
      [[1, 2, 3, 4, 5], [1, 2, 9, 0]] ∧
    (∃ s l, (Append growDouble 0 9 (Split 0 2 heap12345).2).2.objs[0]? = some ⟨s, false⟩ ∧
      s.arr = heap12345.arrays.length ∧ s.arr ≠ 0 ∧
      (Append growDouble 0 9 (Split 0 2 heap12345).2).2.arrays = heap12345.arrays ++ [l]) :=
  have T := Split_truncates_capacity growDouble heap12345 0 ⟨⟨0, 0, 5, 5⟩, false⟩ 2 9
    (by decide) (by decide) (by decide) (by decide)
  ⟨by decide, T.1, by decide, T.2.2⟩

/-! ## Independence of the two halves of a Split -/

theorem goAppend_wf (grow : Nat → Nat → Nat) (h : Heap) (s : Slice) (vs : List Byte)
    (hwf : h.WFSlice s) :
    (goAppend grow h s vs).2.WFSlice (goAppend grow h s vs).1 ∧
    h.arrays.length ≤ (goAppend grow h s vs).2.arrays.length ∧
    (∀ t : Slice, Separate s t → t.arr < h.arrays.length →
      Separate (goAppend grow h s vs).1 t) := by
  have hrl := read_length h s hwf
  obtain ⟨ha, hc, hlc⟩ := hwf
  by_cases hfit : s.len + vs.length ≤ s.cap
  · rw [goAppend_fit grow h s vs hfit]
    refine ⟨⟨?_, ?_, hfit⟩, ?_, ?_⟩
    · simpa [Heap.writeAt] using ha
    · show s.off + s.cap ≤ ((h.writeAt s.arr (s.off + s.len) vs).array s.arr).length
      rw [writeAt_array_self h _ _ _ ha, overwrite_length _ _ _ (by omega)]
      exact hc
    · simp [Heap.writeAt]
    · intro t hsep _
      exact hsep
  · rw [goAppend_grow grow h s vs hfit]
    refine ⟨⟨?_, ?_, ?_⟩, ?_, ?_⟩
    · simp
    · show 0 + max (s.len + vs.length) (grow s.cap (s.len + vs.length)) ≤
        ((Heap.mk (h.arrays ++ [_]) h.objs).array h.arrays.length).length
      rw [append_array_new]
      simp only [List.length_append, List.length_replicate, hrl]
      omega
    · exact le_max_left _ _
    · simp
    · intro t _ ht
      left
      show h.arrays.length ≠ t.arr
      omega

theorem store_arrays_length (h : Heap) (a i : Nat) (v : Byte) :
    (h.store a i v).arrays.length = h.arrays.length := by
  simp [Heap.store]

theorem store_array_length (h : Heap) (a c i : Nat) (v : Byte) :
    ((h.store a i v).array c).length = (h.array c).length := by
  by_cases hac : a = c
  · subst hac
    by_cases ha : a < h.arrays.length
    · rw [store_array_self h _ _ _ ha, List.length_set]
    · simp [Heap.store, Heap.array, List.set_eq_of_length_le (Nat.le_of_not_lt ha)]
  · rw [store_array_ne h _ _ _ _ hac]

/-- `Set` on `p` keeps `q` out of reach and its storage window unchanged. -/
theorem Indep_Set (h : Heap) (p q : Nat) (qb : Bytes) (W : List Byte) (i : Nat) (v : Byte)
    (hI : Indep h p q qb W) : Indep (Set p i v h).2 p q qb W := by
  obtain ⟨hne, hq, hqa, hW, pb, hp, hwf, hsep⟩ := hI
  by_cases hv : pb.Invalid = false
  · by_cases hi : i < pb.Data.len
    · rw [Set_eq h p pb i v hp hv hi]
      obtain ⟨ha, hc, hlc⟩ := hwf
      refine ⟨hne, hq, ?_, ?_, pb, hp, ⟨?_, ?_, hlc⟩, hsep⟩
      · rw [store_arrays_length]; exact hqa
      · rw [← hW]
        simp only [Heap.window]
        by_cases harr : pb.Data.arr = qb.Data.arr
        · rw [← harr, store_array_self h _ _ _ ha]
          apply read_store_outside
          unfold Separate at hsep
          omega
        · rw [store_array_ne h _ _ _ _ harr]
      · rw [store_arrays_length]; exact ha
      · rw [store_array_length]; exact hc
    · have : Set p i v h = (.fail .OutOfBounds, h) := by simp [Set, hp, hv, hi]
      rw [this]
      exact ⟨hne, hq, hqa, hW, pb, hp, hwf, hsep⟩
  · have : Set p i v h = (.fail .Invalidated, h) := by simp [Set, hp, hv]
    rw [this]
    exact ⟨hne, hq, hqa, hW, pb, hp, hwf, hsep⟩

/-- `Append` on `p` keeps `q` out of reach and its storage window unchanged. -/
theorem Indep_Append (grow : Nat → Nat → Nat) (h : Heap) (p q : Nat) (qb : Bytes)
    (W : List Byte) (v : Byte) (hI : Indep h p q qb W) :
    Indep (Append grow p v h).2 p q qb W := by
  obtain ⟨hne, hq, hqa, hW, pb, hp, hwf, hsep⟩ := hI
  have hlt := lt_of_getElem?_eq_some hp
  by_cases hv : pb.Invalid = false
  · rw [Append_eq grow h p pb v hp hv]
    have hg := goAppend_wf grow h pb.Data [v] hwf
    have hobjs := goAppend_objs grow h pb.Data [v]
    refine ⟨hne, ?_, ?_, ?_, ⟨(goAppend grow h pb.Data [v]).1, pb.Invalid⟩, ?_, hg.1,
      hg.2.2 _ hsep hqa⟩
    · simp only [Heap.setData, hobjs]
      rw [List.getElem?_set_ne hne]
      exact hq
    · exact lt_of_lt_of_le hqa hg.2.1
    · rw [← hW]
      exact goAppend_frame grow h pb.Data [v] _ _ _ hwf hqa hsep
    · simp [Heap.setData, hobjs, hlt]
  · have : Append grow p v h = (.fail .Invalidated, h) := by simp [Append, hp, hv]
    rw [this]
    exact ⟨hne, hq, hqa, hW, pb, hp, hwf, hsep⟩

/-- `Subslice` on `p` keeps `q` out of reach and its storage window unchanged. -/
theorem Indep_Subslice (h : Heap) (p q : Nat) (qb : Bytes) (W : List Byte)
    (start stop : Nat) (hI : Indep h p q qb W) : Indep (Subslice p start stop h).2 p q qb W := by
  obtain ⟨hne, hq, hqa, hW, pb, hp, hwf, hsep⟩ := hI
  have hlt := lt_of_getElem?_eq_some hp
  by_cases hv : pb.Invalid = false
  · by_cases hc : start ≤ stop ∧ stop ≤ pb.Data.cap
    · have h2 : pb.Data.slice start stop =
          some ⟨pb.Data.arr, pb.Data.off + start, stop - start, pb.Data.cap - start⟩ := by
        simp [Slice.slice, hc]
      have heq : Subslice p start stop h = (.ok (), h.setData p pb
          ⟨pb.Data.arr, pb.Data.off + start, stop - start, pb.Data.cap - start⟩) := by
        simp [Subslice, hp, hv, h2]
      rw [heq]
      obtain ⟨ha, hcap, hlc⟩ := hwf
      refine ⟨hne, ?_, hqa, hW, ⟨⟨pb.Data.arr, pb.Data.off + start, stop - start,
        pb.Data.cap - start⟩, pb.Invalid⟩, ?_, ⟨ha, ?_, ?_⟩, ?_⟩
      · simp only [Heap.setData]
        rw [List.getElem?_set_ne hne]
        exact hq
      · simp [Heap.setData, hlt]
      · show pb.Data.off + start + (pb.Data.cap - start) ≤ (h.array pb.Data.arr).length
        omega
      · show stop - start ≤ pb.Data.cap - start
        omega
      · unfold Separate at hsep ⊢
        simp only
        omega
    · have h2 : pb.Data.slice start stop = none := by
        simp only [Slice.slice, hc, if_false]
      have : Subslice p start stop h = (.fail .OutOfBounds, h) := by
        simp [Subslice, hp, hv, h2]
      rw [this]
      exact ⟨hne, hq, hqa, hW, pb, hp, hwf, hsep⟩
  · have : Subslice p start stop h = (.fail .Invalidated, h) := by simp [Subslice, hp, hv]
    rw [this]
    exact ⟨hne, hq, hqa, hW, pb, hp, hwf, hsep⟩

theorem Indep_Call (grow : Nat → Nat → Nat) (c : Call) (h : Heap) (p q : Nat) (qb : Bytes)
    (W : List Byte) (hc : c.mutates p = true) (hI : Indep h p q qb W) :
    Indep (c.run grow h) p q qb W := by
  cases c with
  | Set bs i v =>
    have hbs : bs = p := by simpa [Call.mutates] using hc
    subst hbs
    exact Indep_Set h bs q qb W i v hI
  | Append bs v =>
    have hbs : bs = p := by simpa [Call.mutates] using hc
    subst hbs
    exact Indep_Append grow h bs q qb W v hI
  | Subslice bs start stop =>
    have hbs : bs = p := by simpa [Call.mutates] using hc
    subst hbs
    exact Indep_Subslice h bs q qb W start stop hI
  | Len bs => simp [Call.mutates] at hc
  | Get bs i => simp [Call.mutates] at hc
  | AppendBytes bs other => simp [Call.mutates] at hc
  | CopySegment bs dst other src count => simp [Call.mutates] at hc
  | Split bs off => simp [Call.mutates] at hc

theorem Indep_runCalls (grow : Nat → Nat → Nat) (p q : Nat) (qb : Bytes) (W : List Byte)
    (cs : List Call) :
    ∀ h : Heap, (∀ c ∈ cs, c.mutates p = true) → Indep h p q qb W →
      Indep (runCalls grow cs h) p q qb W := by
  induction cs with
  | nil => intro h _ hI; exact hI
  | cons c cs ih =>
    intro h hall hI
    exact ih _ (fun d hd => hall d (List.mem_cons_of_mem c hd))
      (Indep_Call grow c h p q qb W (hall c (List.mem_cons_self c cs)) hI)

/-- The content of the buffer that is out of reach is a prefix of its recorded
storage window. -/
theorem Indep_content (h : Heap) (p q : Nat) (qb : Bytes) (W : List Byte)
    (hI : Indep h p q qb W) (hlc : qb.Data.len ≤ qb.Data.cap) :
    h.content q = W.take qb.Data.len := by
  obtain ⟨-, hq, -, hW, -⟩ := hI
  rw [content_eq h q qb hq, ← hW]
  simp only [Heap.read, Heap.window, List.take_take, Nat.min_eq_left hlc]

/-- C19. Independence in both directions after a Split: for a valid, well-formed
buffer `bs` and `off <= Len(bs)`, after `r = bs.Split(off)`, every sequence of
`Set`, `Append` and `Subslice` calls on `r` (returning or panicking) leaves the
content and the length of `bs` unchanged, and every sequence of `Set`, `Subslice`
(and also `Append`) calls on `bs` leaves the content and the length of `r`
unchanged; in both cases the storage windows of the two slices are still disjoint
at the end. -/
theorem Split_independent (grow : Nat → Nat → Nat) (h : Heap) (bs : Nat) (b : Bytes)
    (off : Nat) (hb : h.objs[bs]? = some b) (hv : b.Invalid = false)
    (hwf : h.WFSlice b.Data) (hoff : off ≤ b.Data.len) (cs : List Call) :
    (Split bs off h).1 = .ok h.objs.length ∧
    ((∀ c ∈ cs, c.mutates h.objs.length = true) →
      (runCalls grow cs (Split bs off h).2).content bs = (Split bs off h).2.content bs ∧
      (Len bs (runCalls grow cs (Split bs off h).2)).1 = (Len bs (Split bs off h).2).1 ∧
      ∃ lb rb, (runCalls grow cs (Split bs off h).2).objs[bs]? = some lb ∧
        (runCalls grow cs (Split bs off h).2).objs[h.objs.length]? = some rb ∧
        Separate rb.Data lb.Data) ∧
    ((∀ c ∈ cs, c.mutates bs = true) →
      (runCalls grow cs (Split bs off h).2).content h.objs.length =
        (Split bs off h).2.content h.objs.length ∧
      (Len h.objs.length (runCalls grow cs (Split bs off h).2)).1 =
        (Len h.objs.length (Split bs off h).2).1 ∧
      ∃ lb rb, (runCalls grow cs (Split bs off h).2).objs[bs]? = some lb ∧
        (runCalls grow cs (Split bs off h).2).objs[h.objs.length]? = some rb ∧
        Separate lb.Data rb.Data) := by
  have hlt := lt_of_getElem?_eq_some hb
  obtain ⟨ha, hc, hlc⟩ := hwf
  have hS := Split_eq h bs b off hb hv hlc hoff
  have hL : (Split bs off h).2.objs[bs]? =
      some ⟨⟨b.Data.arr, b.Data.off, off, off⟩, false⟩ := by
    rw [hS]; simp [List.getElem?_append_left, hlt]
  have hR : (Split bs off h).2.objs[h.objs.length]? =
      some ⟨⟨b.Data.arr, b.Data.off + off, b.Data.len - off, b.Data.cap - off⟩, false⟩ := by
    rw [hS]; simp [List.getElem?_append_right]
  have hA : (Split bs off h).2.arrays = h.arrays := by rw [hS]
  have harr : (Split bs off h).2.array b.Data.arr = h.array b.Data.arr := by
    simp [Heap.array, hA]
  -- the right half is out of reach of the left half, and conversely
  have hIL : Indep (Split bs off h).2 h.objs.length bs
      ⟨⟨b.Data.arr, b.Data.off, off, off⟩, false⟩
      ((Split bs off h).2.window ⟨b.Data.arr, b.Data.off, off, off⟩) := by
    refine ⟨by omega, hL, by rw [hA]; exact ha, rfl, _, hR, ⟨by rw [hA]; exact ha, ?_, ?_⟩, ?_⟩
    · show b.Data.off + off + (b.Data.cap - off) ≤ ((Split bs off h).2.array b.Data.arr).length
      rw [harr]; omega
    · show b.Data.len - off ≤ b.Data.cap - off
      omega
    · right; right
      show b.Data.off + off ≤ b.Data.off + off
      exact le_refl _
  have hIR : Indep (Split bs off h).2 bs h.objs.length
      ⟨⟨b.Data.arr, b.Data.off + off, b.Data.len - off, b.Data.cap - off⟩, false⟩
      ((Split bs off h).2.window
        ⟨b.Data.arr, b.Data.off + off, b.Data.len - off, b.Data.cap - off⟩) := by
    refine ⟨by omega, hR, by rw [hA]; exact ha, rfl, _, hL, ⟨by rw [hA]; exact ha, ?_, ?_⟩, ?_⟩
    · show b.Data.off + off ≤ ((Split bs off h).2.array b.Data.arr).length
      rw [harr]; omega
    · exact le_refl _
    · right; left
      show b.Data.off + off ≤ b.Data.off + off
      exact le_refl _
  refine ⟨by rw [hS], ?_, ?_⟩
  · intro hall
    have hJ := Indep_runCalls grow h.objs.length bs _ _ cs _ hall hIL
    refine ⟨?_, ?_, ?_⟩
    · rw [Indep_content _ _ _ _ _ hJ (le_refl _), Indep_content _ _ _ _ _ hIL (le_refl _)]
    · simp [Len, hJ.2.1, hL]
    · obtain ⟨-, hq, -, -, pb, hp, -, hsep⟩ := hJ
      exact ⟨_, pb, hq, hp, hsep⟩
  · intro hall
    have hJ := Indep_runCalls grow bs h.objs.length _ _ cs _ hall hIR
    refine ⟨?_, ?_, ?_⟩
    · rw [Indep_content _ _ _ _ _ hJ (by show b.Data.len - off ≤ b.Data.cap - off; omega),
        Indep_content _ _ _ _ _ hIR (by show b.Data.len - off ≤ b.Data.cap - off; omega)]
    · simp [Len, hJ.2.1, hR]
    · obtain ⟨-, hq, -, -, pb, hp, -, hsep⟩ := hJ
      exact ⟨pb, _, hp, hq, hsep⟩

/-- Witness for C19: after `r = Data([1,2,3,4,5]).Split(2)`, the calls `r.Set(0, 7)`,
`r.Append(8)`, `r.Subslice(1, 4)`, `r.Append(9)` change `r` to `[4,5,8,9]` and leave
`b = [1,2]`; the calls `b.Set(0, 6)`, `b.Subslice(1, 2)` change `b` to `[2]` and leave
`r = [3,4,5]`. -/
theorem Split_independent_witness :
    (heap12345.objs[0]? = some ⟨⟨0, 0, 5, 5⟩, false⟩ ∧ heap12345.WFSlice ⟨0, 0, 5, 5⟩ ∧
      (Split 0 2 heap12345).1 = .ok 1 ∧
      (Split 0 2 heap12345).2.content 0 = [1, 2] ∧
      (Split 0 2 heap12345).2.content 1 = [3, 4, 5]) ∧
    ((runCalls growDouble [.Set 1 0 7, .Append 1 8, .Subslice 1 1 4, .Append 1 9]
        (Split 0 2 heap12345).2).content 1 = [4, 5, 8, 9]) ∧
    ((runCalls growDouble [.Set 1 0 7, .Append 1 8, .Subslice 1 1 4, .Append 1 9]
        (Split 0 2 heap12345).2).content 0 = (Split 0 2 heap12345).2.content 0) ∧
    ((runCalls growDouble [.Set 0 0 6, .Subslice 0 1 2] (Split 0 2 heap12345).2).content 0
      = [2]) ∧
    ((runCalls growDouble [.Set 0 0 6, .Subslice 0 1 2] (Split 0 2 heap12345).2).content 1
      = (Split 0 2 heap12345).2.content 1) :=
  ⟨by decide, by decide,
   ((Split_independent growDouble heap12345 0 ⟨⟨0, 0, 5, 5⟩, false⟩ 2 (by decide) (by decide)
     (by decide) (by decide) [.Set 1 0 7, .Append 1 8, .Subslice 1 1 4, .Append 1 9]).2.1
     (by decide)).1,
   by decide,
   ((Split_independent growDouble heap12345 0 ⟨⟨0, 0, 5, 5⟩, false⟩ 2 (by decide) (by decide)
     (by decide) (by decide) [.Set 0 0 6, .Subslice 0 1 2]).2.2 (by decide)).1⟩

end DafnyGo
